import Mathlib

/-!
Shallow embedding of the precision-aware datetime core of LivreRecords
(`livre_manager/records/fuzzy_datetime/`: `dt.py`, `tz.py`, `error.py`),
together with theorems settling the spec claims about it.

Conventions:
* Python `None`-able integers become `Option Int`; machine integers are exact
  (Python ints are arbitrary precision).
* Fallible code returns `Except FDError _`.  Besides the library's own error
  classes, `FDError` has constructors for the Python-level `AttributeError`
  (raised where the source dereferences an attribute that does not exist) and
  `OverflowError` (raised by `datetime` arithmetic out of the year 1..9999
  range), because the source can actually raise those.
* The regular expressions `DATETIME_REG` (dt.py) and `_OFFSET_REGEX` (tz.py)
  are embedded as recursive-descent functions over `List Char` that follow the
  regex structure group by group.  Both regexes are anchored and, as argued in
  the comments at each greedy/optional point, backtracking never changes
  matchability or the chosen match, so the deterministic descent computes the
  same result as the regex engine.
-/

namespace LivreRecords

/-! ### Decimal digit helpers (embedding `str`, `int` and `str.zfill`) -/

def digitChar (n : Nat) : Char :=
  match n with
  | 0 => '0' | 1 => '1' | 2 => '2' | 3 => '3' | 4 => '4'
  | 5 => '5' | 6 => '6' | 7 => '7' | 8 => '8' | _ => '9'

def charVal (c : Char) : Nat := c.toNat - 48

/-- `int(s)` on a string of decimal digits. -/
def readNat (l : List Char) : Nat := l.foldl (fun a c => a * 10 + charVal c) 0

/-- Fuel-driven digit expansion; the fuel only needs to dominate the number. -/
def natCharsF : Nat → Nat → List Char
  | 0, n => [digitChar n]
  | fuel + 1, n =>
    if n < 10 then [digitChar n]
    else natCharsF fuel (n / 10) ++ [digitChar (n % 10)]

/-- `str(n)` for a natural number. -/
def natChars (n : Nat) : List Char := natCharsF n n

/-- `str(i)` for a Python int. -/
def intChars (i : Int) : List Char :=
  if i < 0 then '-' :: natChars i.natAbs else natChars i.natAbs

/-- `str.zfill` on digit-only strings (no sign handling needed below the sign
case, which `pyZfill` covers). -/
def zfill (k : Nat) (l : List Char) : List Char :=
  List.replicate (k - l.length) '0' ++ l

/-- Python `str.zfill`: zeros are inserted after a leading sign. -/
def pyZfill (k : Nat) (l : List Char) : List Char :=
  match l with
  | c :: rest => if c = '-' ∨ c = '+' then c :: zfill (k - 1) rest else zfill k (c :: rest)
  | [] => zfill k []

/-- Embeds `_pad(val, length) = str(val).zfill(length)` from dt.py. -/
def pad (val : Int) (length : Nat) : List Char := pyZfill length (intChars val)

def isDigitChar (c : Char) : Bool := 48 ≤ c.toNat ∧ c.toNat ≤ 57

/-- Take at most `k` leading decimal digits (the greedy `\d{1,k}` step). -/
def takeDigitsUpTo : Nat → List Char → List Char × List Char
  | 0, cs => ([], cs)
  | _ + 1, [] => ([], [])
  | k + 1, c :: cs =>
    if isDigitChar c then
      let p := takeDigitsUpTo k cs
      (c :: p.1, p.2)
    else ([], c :: cs)

def lowerChar (c : Char) : Char :=
  if 65 ≤ c.toNat ∧ c.toNat ≤ 90 then Char.ofNat (c.toNat + 32) else c

/-- Python `str.lower` restricted to ASCII (all inputs in this core are ASCII). -/
def asciiLower (s : String) : String := String.mk (s.data.map lowerChar)

/-! ### Precision scale

Modelled from the spec: the class `DatePrecision` that `dt.py` imports from
`fuzzy_datetime.precision` is absent from `src/` (the shipped `precision.py`
defines a different class, `DatetimePrecision`, without the interface `dt.py`
uses).  Per spec §4.1 it is a total order over six levels Year < Month < Day <
Hour < Minute < Second supporting integer indexing, slicing and name lookup;
`dt.py` uses its values exactly as the integer indices 0..5.  We model a
precision as that index. -/

def DatePrecision.YEAR : Nat := 0
def DatePrecision.MONTH : Nat := 1
def DatePrecision.DAY : Nat := 2
def DatePrecision.HOUR : Nat := 3
def DatePrecision.MINUTE : Nat := 4
def DatePrecision.SECOND : Nat := 5

/-- Modelled from the spec: `DatePrecision.by_name` — name-based lookup that
rejects unknown names (the callers in dt.py wrap the `KeyError` into their own
error). -/
def DatePrecision.by_name (s : String) : Option (Fin 6) :=
  if s = "year" then some 0
  else if s = "month" then some 1
  else if s = "day" then some 2
  else if s = "hour" then some 3
  else if s = "minute" then some 4
  else if s = "second" then some 5
  else none

/-- The level names, `DatePrecision(i).name.lower()`. -/
def DatePrecision.nameOf (p : Nat) : String :=
  if p = 0 then "year"
  else if p = 1 then "month"
  else if p = 2 then "day"
  else if p = 3 then "hour"
  else if p = 4 then "minute"
  else "second"

/-! ### Errors (error.py), plus the Python-level errors the source can raise -/

/-- The error taxonomy of `fuzzy_datetime.error`, with the offending
field/input recorded as the string detail.  `attributeError` and
`overflowError` model the Python builtin exceptions that some source paths
raise (they are not `FDError` subclasses in the source either). -/
inductive FDError where
  | formatError (details : String)
  | valueError (details : String)
  | precisionError (details : String)
  | timezoneFormatError (details : String)
  | timezoneValueError (details : String)
  | typeError (details : String)
  | attributeError (details : String)
  | overflowError (details : String)
deriving DecidableEq, Repr

deriving instance DecidableEq for Except

/-! ### Timezones (tz.py) -/

/-- `FlexiTimezone`: a fixed UTC offset in minutes with optional abbreviation
and name.  The source stores the offset as a `timedelta` plus precomputed
sign/hour/minute parts; those are derived values and are recomputed here. -/
structure FlexiTimezone where
  offset : Int
  abbreviation : Option String
  name : Option String
deriving DecidableEq, Repr

def FlexiTimezone.hour_offset (tz : FlexiTimezone) : Nat := tz.offset.natAbs / 60

def FlexiTimezone.min_offset (tz : FlexiTimezone) : Nat := tz.offset.natAbs % 60

/-- `FlexiTimezone.format_offset(utc_prefix, separator)`. -/
def FlexiTimezone.format_offset (tz : FlexiTimezone) (utcPfx : Bool)
    (separator : String) : String :=
  (if utcPfx then "UTC" else "")
    ++ (if tz.offset < 0 then "-" else "+")
    ++ String.mk (zfill 2 (natChars tz.hour_offset))
    ++ separator
    ++ String.mk (zfill 2 (natChars tz.min_offset))

/-- `FlexiTimezone.try_format(tz_formats)`: first renderable form wins; an
unknown format name or exhaustion raises `FDValueError`.  A `name`/`abbr` form
applies only when the field is present and truthy (non-empty). -/
def FlexiTimezone.try_format (tz : FlexiTimezone) (tz_formats : List String) :
    Except FDError String :=
  match tz_formats with
  | [] => .error (.valueError "no tz format available")
  | f :: rest =>
    if f = "name" then
      match tz.name with
      | some n => if n ≠ "" then .ok n else FlexiTimezone.try_format tz rest
      | none => FlexiTimezone.try_format tz rest
    else if f = "abbr" then
      match tz.abbreviation with
      | some a => if a ≠ "" then .ok a else FlexiTimezone.try_format tz rest
      | none => FlexiTimezone.try_format tz rest
    else if f = "+hh:mm" then .ok (tz.format_offset false ":")
    else if f = "+hhmm" then .ok (tz.format_offset false "")
    else if f = "utc+hh:mm" then .ok (tz.format_offset true ":")
    else if f = "utc+hhmm" then .ok (tz.format_offset true "")
    else .error (.valueError "unknown tz_format")

/-- Modelled from the spec: `TZ_MAP` (module `fuzzy_datetime.tz_map`) is absent
from `src/`.  Per spec §3/§4.2 it is a fixed, pre-built static table of zone
definitions (canonical name, display abbreviation, UTC offset in minutes) with
at most one canonical entry per name and one per abbreviation.  We model a
representative table containing the zones the spec names. -/
def TZ_MAP : List (String × String × Int) :=
  [("UTC", "UTC", 0), ("Asia/Tokyo", "JST", 540), ("America/New_York", "EST", -300)]

/-- `all_timezones`: lookup index keyed by lowercase full name. -/
def all_timezones : List (String × FlexiTimezone) :=
  TZ_MAP.map (fun e => (asciiLower e.1, ⟨e.2.2, some e.2.1, some e.1⟩))

/-- `all_timezones_by_abbr`: lookup index keyed by lowercase abbreviation. -/
def all_timezones_by_abbr : List (String × FlexiTimezone) :=
  all_timezones.map (fun p => (asciiLower (p.2.abbreviation.getD ""), p.2))

/-- Dictionary `get`. -/
def tzLookup (l : List (String × FlexiTimezone)) (k : String) :
    Option FlexiTimezone :=
  (l.find? (fun p => p.1 == k)).map (fun p => p.2)

/-- The groups of `_OFFSET_REGEX`: the optional `UTC` prefix, the sign, and
either the colon-separated `(hours, minutes)` digits or the compact digit run. -/
structure OffsetGroups where
  utc : Bool
  sign : Char
  colon : Option (List Char × List Char)
  compact : Option (List Char)
deriving DecidableEq, Repr

/-- The `(?P<utc>UTC)?` prefix (input is already lowercased; the regex is
case-insensitive).  If the prefix is consumed and the rest fails, re-trying
without it cannot succeed either (a sign would have to follow immediately but
the first char is `u`), so consuming greedily is faithful. -/
def stripUtc : List Char → Bool × List Char
  | 'u' :: 't' :: 'c' :: rest => (true, rest)
  | cs => (false, cs)

/-- Embeds `_OFFSET_REGEX` from tz.py:
`^(UTC)?([+-])((\d{1,2})(:)(\d{1,2})|(\d{1,4}))$`.

Determinization argument: the colon alternative is tried first.  Its greedy
`\d{1,2}` for hours cannot miss a match by taking two digits — if two digits
are available, shrinking to one leaves a digit where `:` is required.  If the
colon alternative fails, the compact alternative reads digits from the same
start.  Trailing-garbage failures cannot be rescued by shrinking either
quantifier, because shrinking always leaves a digit where the end of string is
required. -/
def matchOffset (cs : List Char) : Option OffsetGroups :=
  let p := stripUtc cs
  match p.2 with
  | c :: r =>
    if c = '+' ∨ c = '-' then
      let hp := takeDigitsUpTo 2 r
      match hp.2 with
      | ':' :: r2 =>
        if hp.1 = [] then none
        else
          let mp := takeDigitsUpTo 2 r2
          if mp.1 ≠ [] ∧ mp.2 = [] then
            some ⟨p.1, c, some (hp.1, mp.1), none⟩
          else none
      | _ =>
        let dp := takeDigitsUpTo 4 r
        if dp.1 ≠ [] ∧ dp.2 = [] then some ⟨p.1, c, none, some dp.1⟩
        else none
    else none
  | [] => none

/-- The default `allowed_formats` of `FlexiTimezone.parse`. -/
def tzAllFormats : List String :=
  ["name", "abbr", "z", "+hh:mm", "+hhmm", "utc+hh:mm", "utc+hhmm"]

/-- Splits the compact offset digits per the `match len(offset_str)` in
tz.py (1-4 digits guaranteed by the regex). -/
def splitCompact (d : List Char) : List Char × List Char :=
  if d.length ≤ 2 then (d, ['0'])
  else if d.length = 3 then (d.take 1, d.drop 1)
  else (d.take 2, d.drop 2)

/-- `FlexiTimezone.parse(s, allowed_formats)` from tz.py: canonical-name lookup,
then the `Z` literal, then abbreviation lookup, then the numeric offset
pattern, each gated by the allowed-forms set; otherwise
`FDTimezoneFormatError`. -/
def FlexiTimezone.parse (s : String) (allowed_formats : Option (List String)) :
    Except FDError FlexiTimezone :=
  let allowed := allowed_formats.getD tzAllFormats
  let tz_input := asciiLower s
  match tzLookup all_timezones tz_input with
  | some tz =>
    if allowed.contains "name" then .ok tz
    else .error (.timezoneFormatError s)
  | none =>
    if tz_input = "z" then
      if allowed.contains "z" then
        match tzLookup all_timezones_by_abbr "utc" with
        | some tz => .ok tz
        | none => .error (.timezoneValueError "utc")
      else .error (.timezoneFormatError s)
    else
      match tzLookup all_timezones_by_abbr tz_input with
      | some tz =>
        if allowed.contains "abbr" then .ok tz
        else .error (.timezoneFormatError s)
      | none =>
        match matchOffset tz_input.data with
        | some g =>
          match g.colon with
          | some hm =>
            if g.utc ∧ ¬ allowed.contains "utc+hh:mm" then
              .error (.timezoneFormatError s)
            else if ¬ g.utc ∧ ¬ allowed.contains "+hh:mm" then
              .error (.timezoneFormatError s)
            else
              let offset : Int := (readNat hm.1 * 60 + readNat hm.2 : Nat)
              .ok ⟨if g.sign = '-' then -offset else offset, none, none⟩
          | none =>
            if g.utc ∧ ¬ allowed.contains "utc+hhmm" then
              .error (.timezoneFormatError s)
            else if ¬ g.utc ∧ ¬ allowed.contains "+hhmm" then
              .error (.timezoneFormatError s)
            else
              let hm := splitCompact (g.compact.getD [])
              let offset : Int := (readNat hm.1 * 60 + readNat hm.2 : Nat)
              .ok ⟨if g.sign = '-' then -offset else offset, none, none⟩
        | none => .error (.timezoneFormatError s)

/-! ### The datetime value (dt.py) -/

/-- `FuzzyDatetime`: the immutable precision-aware value.  `_components` is the
six-slot `(year, month, day, hour, minute, second)` tuple. -/
structure FuzzyDatetime where
  _components : List (Option Int)
  _precision : Nat
  _tzinfo : Option FlexiTimezone
deriving DecidableEq, Repr

def FuzzyDatetime.year (v : FuzzyDatetime) : Option Int := v._components.getD 0 none
def FuzzyDatetime.month (v : FuzzyDatetime) : Option Int := v._components.getD 1 none
def FuzzyDatetime.day (v : FuzzyDatetime) : Option Int := v._components.getD 2 none
def FuzzyDatetime.hour (v : FuzzyDatetime) : Option Int := v._components.getD 3 none
def FuzzyDatetime.minute (v : FuzzyDatetime) : Option Int := v._components.getD 4 none
def FuzzyDatetime.second (v : FuzzyDatetime) : Option Int := v._components.getD 5 none

def isLeap (y : Int) : Bool := y % 4 == 0 && (y % 100 != 0 || y % 400 == 0)

/-- `calendar.monthrange(year, month)[1]` (only called with a validated month). -/
def daysInMonth (y m : Int) : Int :=
  if m = 2 then (if isLeap y then 29 else 28)
  else if m = 4 ∨ m = 6 ∨ m = 9 ∨ m = 11 then 30
  else 31

/-- Missing positional arguments of `__init__` default to `None`; the
components list always has the six slots. -/
def normalizeComponents (components : List (Option Int)) : List (Option Int) :=
  (components ++ List.replicate 6 none).take 6

/-- The precision-inference loop of `_determine_precision` (`for i in
range(len(DatePrecision)-1, 0, -1)`): the deepest populated component, else
Year. -/
def inferPrec (c : List (Option Int)) : Nat :=
  if (c.getD 5 none).isSome then 5
  else if (c.getD 4 none).isSome then 4
  else if (c.getD 3 none).isSome then 3
  else if (c.getD 2 none).isSome then 2
  else if (c.getD 1 none).isSome then 1
  else 0

/-- The zero-fill loop of `_determine_precision` (`for j in range(i,
precision+1)`): indices in `[lo, hi]` that are `None` become `0`. -/
def fillDefaults (c : List (Option Int)) (lo hi : Nat) : List (Option Int) :=
  c.mapIdx (fun i x => if lo ≤ i ∧ i ≤ hi ∧ x.isNone then some 0 else x)

/-- The presence check and zero fill shared by both branches of
`_determine_precision`.  Source bug modelled faithfully: the `FDPrecisionError`
it builds for a missing year/month/day interpolates `self._precision` (and
reads `self.year` …) before `__init__` has assigned `self._components`, so
Python actually raises `AttributeError`. -/
def checkLowAndFill (components : List (Option Int)) (p : Nat) :
    Except FDError (List (Option Int) × Nat) :=
  if (List.range (min 3 (p + 1))).any
      (fun i => (components.getD i none).isNone) then
    .error (.attributeError "_precision")
  else
    .ok (fillDefaults components (min 3 (p + 1) - 1) p, p)

/-- `FuzzyDatetime._determine_precision`.  Source bug modelled faithfully: the
`FDPrecisionError` raised when a component above an explicit precision is
populated also reads `self.year` … before `self._components` exists, so Python
raises `AttributeError` there too.  (The string-precision branch of the source
is resolved by the callers here; parse and with_precision always pass an
already-resolved precision.) -/
def determinePrecision (components : List (Option Int))
    (precision : Option (Fin 6)) :
    Except FDError (List (Option Int) × Nat) :=
  match precision with
  | some p =>
    if (List.range' (p.val + 1) (6 - (p.val + 1))).any
        (fun i => (components.getD i none).isSome) then
      .error (.attributeError "year")
    else checkLowAndFill components p.val
  | none => checkLowAndFill components (inferPrec components)

/-- `FuzzyDatetime._validate_datetime`: cascaded range checks; each error
carries the offending field name. -/
def validateDatetime (c : List (Option Int)) : Except FDError Unit :=
  match c.getD 0 none with
  | none => .error (.typeError "year")
  | some y =>
    if ¬ (1 ≤ y ∧ y ≤ 9999) then .error (.valueError "year")
    else
      match c.getD 1 none with
      | none => .ok ()
      | some mo =>
        if ¬ (1 ≤ mo ∧ mo ≤ 12) then .error (.valueError "month")
        else
          match c.getD 2 none with
          | none => .ok ()
          | some d =>
            if ¬ (1 ≤ d ∧ d ≤ daysInMonth y mo) then .error (.valueError "day")
            else
              match c.getD 3 none with
              | none => .ok ()
              | some h =>
                if ¬ (0 ≤ h ∧ h ≤ 23) then .error (.valueError "hour")
                else
                  match c.getD 4 none with
                  | none => .ok ()
                  | some mi =>
                    if ¬ (0 ≤ mi ∧ mi ≤ 59) then .error (.valueError "minute")
                    else
                      match c.getD 5 none with
                      | none => .ok ()
                      | some s =>
                        if ¬ (0 ≤ s ∧ s ≤ 59) then .error (.valueError "second")
                        else .ok ()

/-- `FuzzyDatetime.__init__`: determine/validate the components, else fail
all-or-nothing. -/
def FuzzyDatetime.init (components : List (Option Int))
    (tzinfo : Option FlexiTimezone) (precision : Option (Fin 6)) :
    Except FDError FuzzyDatetime :=
  match determinePrecision (normalizeComponents components) precision with
  | .error e => .error e
  | .ok (comps, prec) =>
    match validateDatetime comps with
    | .error e => .error e
    | .ok _ => .ok ⟨comps, prec, tzinfo⟩

/-! ### The datetime grammar (DATETIME_REG in dt.py) -/

/-- The named groups of `DATETIME_REG` (component groups kept as the raw digit
strings, as the regex does; `parse` converts them with `int`). -/
structure DtGroups where
  year : List Char
  sep1 : Option Char
  month : Option (List Char)
  sep2 : Option Char
  day : Option (List Char)
  hour : Option (List Char)
  sep3 : Option Char
  minute : Option (List Char)
  sep4 : Option Char
  second : Option (List Char)
  tz : Option (List Char)
deriving DecidableEq, Repr

def isDateSep (c : Char) : Bool := c = '/' ∨ c = '.' ∨ c = '-'

def isTimeSep (c : Char) : Bool := c = ':' ∨ c = '.' ∨ c = '-'

/-- The timezone token class `[a-zA-Z0-9/_:+-]` (`FlexiTimezone.TZ_PATTERN`). -/
def isTzChar (c : Char) : Bool :=
  (97 ≤ c.toNat ∧ c.toNat ≤ 122) ∨ (65 ≤ c.toNat ∧ c.toNat ≤ 90) ∨
    isDigitChar c ∨ c = '/' ∨ c = '_' ∨ c = ':' ∨ c = '+' ∨ c = '-'

/-- Python `\s` (ASCII range). -/
def isPySpace (c : Char) : Bool :=
  c = ' ' ∨ c = '\t' ∨ c = '\n' ∨ c = '\r' ∨ c = '\x0b' ∨ c = '\x0c'

/-- The trailing `(?:\s?(?P<tz>[a-zA-Z0-9/_:+-]+))?$` of `DATETIME_REG`.
`none` means the regex as a whole fails here (leftover input); `some none`
means the optional timezone group is absent and the anchor matches.
Shrinking the greedy `+` can never help: a non-tz char stays unconsumed. -/
def matchTzTail (cs : List Char) : Option (Option (List Char)) :=
  match cs with
  | [] => some none
  | c :: rest =>
    if isPySpace c then
      let t := rest.takeWhile isTzChar
      if t ≠ [] ∧ rest.dropWhile isTzChar = [] then some (some t) else none
    else
      let t := cs.takeWhile isTzChar
      if t ≠ [] ∧ cs.dropWhile isTzChar = [] then some (some t) else none

/-- The `(?:(?P<sep4>[:.-])(?P<second>\d{1,2}))?` group followed by the tz
tail.  If the separator-plus-digit prefix is absent the group is skipped. -/
def matchSecondPart (g : DtGroups) (cs : List Char) : Option DtGroups :=
  match cs with
  | c :: rest =>
    if isTimeSep c then
      let p := takeDigitsUpTo 2 rest
      if p.1 ≠ [] then
        match matchTzTail p.2 with
        | some tz => some { g with sep4 := some c, second := some p.1, tz := tz }
        | none =>
          -- Backtracking note: shrinking `second` leaves a digit where the tz
          -- tail would need a space or the end, and a digit is a tz char, so
          -- the greedy take and the 1-digit take fail together; skipping the
          -- group entirely makes the separator the next char, and every
          -- matchable continuation from there is also matchable with the
          -- group taken (the separator and digits are tz chars, while a
          -- leading `\s` is consumed only directly after the group).
          none
      else
        match matchTzTail cs with
        | some tz => some { g with tz := tz }
        | none => none
    else
      match matchTzTail cs with
      | some tz => some { g with tz := tz }
      | none => none
  | [] => some { g with tz := none }

/-- The `(?:(?P<sep3>[:.-])(?P<minute>\d{1,2})...)?` group (same backtracking
argument as `matchSecondPart`). -/
def matchMinutePart (g : DtGroups) (cs : List Char) : Option DtGroups :=
  match cs with
  | c :: rest =>
    if isTimeSep c then
      let p := takeDigitsUpTo 2 rest
      if p.1 ≠ [] then
        matchSecondPart { g with sep3 := some c, minute := some p.1 } p.2
      else
        match matchTzTail cs with
        | some tz => some { g with tz := tz }
        | none => none
    else
      match matchTzTail cs with
      | some tz => some { g with tz := tz }
      | none => none
  | [] => some { g with tz := none }

/-- The `(?:[ T](?P<hour>\d{1,2})...)?$` group: an hour (and everything below
it, including the timezone) can only appear after a day. -/
def matchHourPart (g : DtGroups) (cs : List Char) : Option DtGroups :=
  match cs with
  | [] => some g
  | c :: rest =>
    if c = ' ' ∨ c = 'T' then
      let p := takeDigitsUpTo 2 rest
      if p.1 ≠ [] then matchMinutePart { g with hour := some p.1 } p.2
      else none
    else none

/-- The `(?:(?P<sep2>[/.-])(?P<day>\d{1,2})...)?$` group. -/
def matchDayPart (g : DtGroups) (cs : List Char) : Option DtGroups :=
  match cs with
  | [] => some g
  | c :: rest =>
    if isDateSep c then
      let p := takeDigitsUpTo 2 rest
      if p.1 ≠ [] then matchHourPart { g with sep2 := some c, day := some p.1 } p.2
      else none
    else none

/-- The `(?:(?P<sep1>[/.-])(?P<month>\d{1,2})...)?$` group. -/
def matchMonthPart (g : DtGroups) (cs : List Char) : Option DtGroups :=
  match cs with
  | [] => some g
  | c :: rest =>
    if isDateSep c then
      let p := takeDigitsUpTo 2 rest
      if p.1 ≠ [] then matchDayPart { g with sep1 := some c, month := some p.1 } p.2
      else none
    else none

/-- Embeds `DATETIME_REG.match`: `^(?P<year>\d{4})(?: ... )?$`.

Determinization argument: every greedy `\d{1,2}` takes the maximal digit run
(shrinking leaves a digit where a separator, `[ T]`, `\s`, or the anchor is
required, and where the tz class could consume it the greedy choice matches
whenever the shrunk one does), and skipping an optional group that could start
never rescues a failed match (see the group functions). -/
def matchDatetime (cs : List Char) : Option DtGroups :=
  let p := takeDigitsUpTo 4 cs
  if p.1.length = 4 then
    matchMonthPart ⟨p.1, none, none, none, none, none, none, none, none, none, none⟩ p.2
  else none

/-- The input-precision loop of `parse`: the first absent group among
month..second determines the precision (`DatePrecision(prec - 1)`), else
Second. -/
def inPrecisionOf (g : DtGroups) : Fin 6 :=
  if g.month.isNone then 0
  else if g.day.isNone then 1
  else if g.hour.isNone then 2
  else if g.minute.isNone then 3
  else if g.second.isNone then 4
  else 5

/-- The default `allowed_tz_formats` of `FuzzyDatetime.parse`. -/
def dtAllTzFormats : List String :=
  ["none", "name", "abbr", "z", "+hh:mm", "+hhmm", "utc+hh:mm", "utc+hhmm"]

/-- The required-precision check of `parse` (the `if precision_required:`
block; the empty string is falsy and skips the check; an unknown name becomes
`FDValueError`, an unmet requirement `FDPrecisionError`).  Returns the error
to raise, if any. -/
def precisionCheck (precision_required : String) (in_precision : Fin 6)
    (source : String) : Option FDError :=
  if precision_required = "" then none
  else
    match DatePrecision.by_name precision_required with
    | none => some (.valueError source)
    | some req =>
      if in_precision.val < req.val then some (.precisionError source) else none

/-- `same_date_sep`/`same_time_sep` test: both separators captured and
different. -/
def sepMismatch (a b : Option Char) : Bool :=
  match a, b with
  | some x, some y => x ≠ y
  | _, _ => false

/-- The component groups as `parse` converts them
(`int(g[...]) if g[...] else None`). -/
def groupComponents (g : DtGroups) : List (Option Int) :=
  [some (readNat g.year : Nat), g.month.map (fun l => ((readNat l : Nat) : Int)),
   g.day.map (fun l => ((readNat l : Nat) : Int)),
   g.hour.map (fun l => ((readNat l : Nat) : Int)),
   g.minute.map (fun l => ((readNat l : Nat) : Int)),
   g.second.map (fun l => ((readNat l : Nat) : Int))]

/-- `FuzzyDatetime.parse(source, precision_required, same_date_sep,
same_time_sep, allowed_tz_formats)` from dt.py, with the source's sequential
raises written as a match chain: grammar match, required-precision check,
separator checks, timezone resolution (a `FDTimezoneFormatError` from the
timezone parser is re-raised annotated with the full source string; a missing
timezone is an error unless the `none` pseudo-form is allowed), construction. -/
def FuzzyDatetime.parse (source : String) (precision_required : String := "year")
    (same_date_sep : Bool := false) (same_time_sep : Bool := false)
    (allowed_tz_formats : Option (List String) := none) :
    Except FDError FuzzyDatetime :=
  let allowed := allowed_tz_formats.getD dtAllTzFormats
  match matchDatetime source.data with
  | none => .error (.formatError source)
  | some g =>
    let in_precision := inPrecisionOf g
    match precisionCheck precision_required in_precision source with
    | some e => .error e
    | none =>
      if same_date_sep ∧ sepMismatch g.sep1 g.sep2 then
        .error (.formatError source)
      else if same_time_sep ∧ sepMismatch g.sep3 g.sep4 then
        .error (.formatError source)
      else
        match g.tz with
        | some tok =>
          match FlexiTimezone.parse (String.mk tok) (some allowed) with
          | .ok t =>
            FuzzyDatetime.init (groupComponents g) (some t) (some in_precision)
          | .error (.timezoneFormatError _) => .error (.timezoneFormatError source)
          | .error e => .error e
        | none =>
          if ¬ allowed.contains "none" then
            .error (.timezoneFormatError ("Missing timezone in " ++ source))
          else FuzzyDatetime.init (groupComponents g) none (some in_precision)

/-- `FuzzyDatetime.to_string(zero_pad, date_sep, time_sep, tz_formats)`: render
the components from year down to the value's precision, then the timezone via
`try_format` (whose error propagates; an empty render is falsy and skipped). -/
def FuzzyDatetime.to_string (v : FuzzyDatetime) (zero_pad : Bool := true)
    (date_sep : String := "/") (time_sep : String := ":")
    (tz_formats : List String := ["abbr", "name", "+hhmm"]) :
    Except FDError String := do
  let render2 : Option Int → List Char := fun c =>
    match c with
    | some x => if zero_pad then pad x 2 else intChars x
    | none => "None".data  -- str(None); unreachable for constructed values
  let first : List Char :=
    match v.year with
    | some y => if zero_pad then pad y 4 else intChars y
    | none => "None".data
  let configs : List (Option Int × List Char) :=
    [(v.month, date_sep.data), (v.day, date_sep.data), (v.hour, [' ']),
     (v.minute, time_sep.data), (v.second, time_sep.data)]
  let out := (configs.take v._precision).foldl
    (fun acc pr => acc ++ pr.2 ++ render2 pr.1) first
  match v._tzinfo with
  | some tz =>
    let s ← tz.try_format tz_formats
    if s ≠ "" then pure (String.mk (out ++ [' '] ++ s.data))
    else pure (String.mk out)
  | none => pure (String.mk out)

/-- Python's `datetime.datetime` as consumed/produced by this core (naive
calendar fields plus the attached tzinfo). -/
structure PyDatetime where
  year : Int
  month : Int
  day : Int
  hour : Int
  minute : Int
  second : Int
  tzinfo : Option FlexiTimezone
deriving DecidableEq, Repr

/-- `FuzzyDatetime.with_precision(precision, default, rounding)` from dt.py.
Source bug modelled faithfully: narrowing to Hour/Minute with no `default`
reaches `elif default.tzinfo:` with `default` still `None`, i.e. Python raises
`AttributeError`. -/
def FuzzyDatetime.with_precision (v : FuzzyDatetime) (precision : String)
    (default : Option PyDatetime := none) (rounding : String := "trunc") :
    Except FDError FuzzyDatetime := do
  let some prec := DatePrecision.by_name precision | throw (.valueError precision)
  if prec.val = v._precision then return v
  let state ←
    (if prec.val < v._precision then
      if rounding = "trunc" then
        pure ((v._components.take (prec.val + 1), default))
      else if rounding = "ceil" ∨ rounding = "round" then
        if prec.val < DatePrecision.DAY then throw (.valueError rounding)
        else
          match v._components.getD prec.val none,
              v._components.getD (prec.val + 1) none with
          | some cur, some nxt =>
            if rounding = "ceil" then
              pure ((v._components.take prec.val
                ++ [some (if nxt > 0 then cur + 1 else cur)], default))
            else
              let width : Int := if prec.val = DatePrecision.DAY then 24 else 60
              pure ((v._components.take prec.val
                ++ [some (if nxt ≥ width / 2 then cur + 1 else cur)], default))
          | _, _ => throw (.typeError rounding)  -- Python: comparing None > int
      else throw (.valueError rounding)
    else
      -- widening: `default = datetime(self.year, 1, 1, 0, 0, 0)` when absent
      let d := default.getD ⟨v.year.getD 0, 1, 1, 0, 0, 0, none⟩
      let comps : List (Option Int) :=
        [some (v.year.getD d.year), some (v.month.getD d.month),
         some (v.day.getD d.day), some (v.hour.getD d.hour),
         some (v.minute.getD d.minute), some (v.second.getD d.second)]
      pure ((comps.take (prec.val + 1), some d)))
  let tzinfo ←
    if prec.val < DatePrecision.HOUR then pure none
    else
      match state.2 with
      | none => throw (.attributeError "tzinfo")  -- `default.tzinfo`, default=None
      | some d =>
        match d.tzinfo with
        | some t => pure (some t)  -- always a FlexiTimezone here by typing
        | none => pure v._tzinfo
  FuzzyDatetime.init state.1 tzinfo (some prec)

/-- `FuzzyDatetime.to_datetime(default)`: components up to the precision, the
rest from the default (midnight January 1 when absent), tzinfo attached. -/
def FuzzyDatetime.to_datetime (v : FuzzyDatetime) (default : Option PyDatetime) :
    Except FDError PyDatetime := do
  let defc : List Int :=
    match default with
    | none => [1, 1, 0, 0, 0]
    | some d => [d.month, d.day, d.hour, d.minute, d.second]
  let vals ← (v._components.take (v._precision + 1)).mapM
    (fun c =>
      match c with
      | some x => pure x
      | none => throw (.typeError "component"))  -- datetime(None, ...) in Python
  let full := vals ++ defc.drop v._precision
  pure ⟨full.getD 0 0, full.getD 1 0, full.getD 2 0, full.getD 3 0,
    full.getD 4 0, full.getD 5 0, v._tzinfo⟩

/-! Calendar arithmetic backing Python's `datetime ± timedelta` (the standard
civil-from-days / days-from-civil conversions, with Euclidean division). -/

def daysFromCivil (y m d : Int) : Int :=
  let y' := y - (if m ≤ 2 then 1 else 0)
  let era := Int.ediv y' 400
  let yoe := y' - era * 400
  let mp := Int.emod (m + 9) 12
  let doy := Int.ediv (153 * mp + 2) 5 + d - 1
  let doe := yoe * 365 + Int.ediv yoe 4 - Int.ediv yoe 100 + doy
  era * 146097 + doe - 719468

def civilFromDays (z0 : Int) : Int × Int × Int :=
  let z := z0 + 719468
  let era := Int.ediv z 146097
  let doe := z - era * 146097
  let yoe := Int.ediv
    (doe - Int.ediv doe 1460 + Int.ediv doe 36524 - Int.ediv doe 146096) 365
  let y := yoe + era * 400
  let doy := doe - (365 * yoe + Int.ediv yoe 4 - Int.ediv yoe 100)
  let mp := Int.ediv (5 * doy + 2) 153
  let d := doy - Int.ediv (153 * mp + 2) 5 + 1
  let m := mp + (if mp < 10 then 3 else -9)
  (y + (if m ≤ 2 then 1 else 0), m, d)

/-- Python `datetime ± timedelta` (the timedelta as whole seconds; sub-second
parts play no role in this core): wall-clock arithmetic carrying tzinfo
through unchanged; a result outside year 1..9999 raises `OverflowError`. -/
def pyDatetimeAddSeconds (dt : PyDatetime) (secs : Int) :
    Except FDError PyDatetime :=
  let total := daysFromCivil dt.year dt.month dt.day * 86400
    + dt.hour * 3600 + dt.minute * 60 + dt.second + secs
  let days := Int.ediv total 86400
  let sod := Int.emod total 86400
  let c := civilFromDays days
  if 1 ≤ c.1 ∧ c.1 ≤ 9999 then
    .ok ⟨c.1, c.2.1, c.2.2, Int.ediv sod 3600, Int.emod (Int.ediv sod 60) 60,
      Int.emod sod 60, dt.tzinfo⟩
  else .error (.overflowError "date value out of range")

/-- `FuzzyDatetime.__add__(timedelta)`: convert to a full `datetime`, add,
re-extract only the components up to the original precision, keep the original
precision and tzinfo.  (`self._precision` is a `DatePrecision` by typing, hence
always < 6; the guard only realizes that typing in the model.) -/
def FuzzyDatetime.add (v : FuzzyDatetime) (secs : Int) :
    Except FDError FuzzyDatetime := do
  let dt ← v.to_datetime none
  let dt' ← pyDatetimeAddSeconds dt secs
  let components := ([some dt'.year, some dt'.month, some dt'.day,
    some dt'.hour, some dt'.minute, some dt'.second] : List (Option Int)).take
    (v._precision + 1)
  if h : v._precision < 6 then
    FuzzyDatetime.init components v._tzinfo (some ⟨v._precision, h⟩)
  else throw (.typeError "precision")

/-- `FuzzyDatetime.__sub__(timedelta)`: identical to `__add__` with the
duration negated. -/
def FuzzyDatetime.sub (v : FuzzyDatetime) (secs : Int) :
    Except FDError FuzzyDatetime := do
  let dt ← v.to_datetime none
  let dt' ← pyDatetimeAddSeconds dt (-secs)
  let components := ([some dt'.year, some dt'.month, some dt'.day,
    some dt'.hour, some dt'.minute, some dt'.second] : List (Option Int)).take
    (v._precision + 1)
  if h : v._precision < 6 then
    FuzzyDatetime.init components v._tzinfo (some ⟨v._precision, h⟩)
  else throw (.typeError "precision")

/-- The optional rendered timezone tail (a space plus the token when
present). -/
def tzSuffix (o : Option (List Char)) : List Char :=
  match o with
  | none => []
  | some tok => ' ' :: tok

/-- The constructor invariant: six component slots, precision within the
scale, a component populated exactly when at or below the precision, and the
populated components calendar-valid. -/
def ValidShape (v : FuzzyDatetime) : Prop :=
  v._components.length = 6 ∧ v._precision ≤ 5 ∧
  (∀ i, i < 6 → ((v._components.getD i none).isSome ↔ i ≤ v._precision)) ∧
  validateDatetime v._components = .ok ()

/-- The timezone of a parsed value is either a registry entry or an anonymous
numeric offset. -/
def TzFromParse (t : FlexiTimezone) : Prop :=
  t ∈ all_timezones.map Prod.snd ∨ (t.abbreviation = none ∧ t.name = none)

/-! ### Lemmas about the decimal digit helpers -/

theorem charVal_digitChar : ∀ n, n < 10 → charVal (digitChar n) = n := by
  decide

theorem isDigitChar_digitChar : ∀ n, n < 10 → isDigitChar (digitChar n) = true := by
  decide

theorem natCharsF_small (f n : Nat) (h : n < 10) :
    natCharsF f n = [digitChar n] := by
  cases f
  · rfl
  · simp [natCharsF, h]

theorem natCharsF_fuel : ∀ (f f' n : Nat), n ≤ f → n ≤ f' →
    natCharsF f n = natCharsF f' n := by
  intro f
  induction f with
  | zero =>
    intro f' n h h'
    have hn : n = 0 := by omega
    subst hn
    rw [natCharsF_small 0 0 (by omega), natCharsF_small f' 0 (by omega)]
  | succ f ih =>
    intro f' n h h'
    by_cases hn : n < 10
    · rw [natCharsF_small _ _ hn, natCharsF_small _ _ hn]
    · have hf' : ∃ f'', f' = f'' + 1 := ⟨f' - 1, by omega⟩
      obtain ⟨f'', rfl⟩ := hf'
      simp only [natCharsF, if_neg hn]
      rw [ih f'' (n / 10) (by omega) (by omega)]

theorem natChars_unfold (n : Nat) :
    natChars n = if n < 10 then [digitChar n]
      else natChars (n / 10) ++ [digitChar (n % 10)] := by
  by_cases hn : n < 10
  · rw [if_pos hn]
    exact natCharsF_small n n hn
  · rw [if_neg hn]
    have hn1 : ∃ m, n = m + 1 := ⟨n - 1, by omega⟩
    obtain ⟨m, rfl⟩ := hn1
    show natCharsF (m + 1) (m + 1) = _
    simp only [natCharsF, if_neg hn]
    rw [natCharsF_fuel m ((m + 1) / 10) ((m + 1) / 10) (by omega) (by omega)]
    rfl

theorem natChars_ne_nil (n : Nat) : natChars n ≠ [] := by
  rw [natChars_unfold]
  split
  · simp
  · simp

theorem natChars_all_digits (n : Nat) :
    ∀ c ∈ natChars n, isDigitChar c = true := by
  induction n using Nat.strong_induction_on with
  | _ n ih =>
    rw [natChars_unfold]
    split
    · intro c hc
      simp only [List.mem_singleton] at hc
      subst hc
      exact isDigitChar_digitChar n (by omega)
    · intro c hc
      rcases List.mem_append.mp hc with h | h
      · exact ih (n / 10) (Nat.div_lt_self (by omega) (by omega)) c h
      · simp only [List.mem_singleton] at h
        subst h
        exact isDigitChar_digitChar (n % 10) (Nat.mod_lt _ (by omega))

theorem readNat_foldl (l : List Char) : ∀ (a : Nat),
    l.foldl (fun a c => a * 10 + charVal c) a = a * 10 ^ l.length + readNat l := by
  induction l with
  | nil => intro a; simp [readNat]
  | cons c t ih =>
    intro a
    simp only [List.foldl_cons, List.length_cons, readNat]
    rw [ih (a * 10 + charVal c), ih (0 * 10 + charVal c)]
    ring

theorem readNat_append (l₁ l₂ : List Char) :
    readNat (l₁ ++ l₂) = readNat l₁ * 10 ^ l₂.length + readNat l₂ := by
  simp only [readNat, List.foldl_append]
  rw [readNat_foldl]
  rfl

theorem readNat_natChars (n : Nat) : readNat (natChars n) = n := by
  induction n using Nat.strong_induction_on with
  | _ n ih =>
    rw [natChars_unfold]
    split
    · simp [readNat, charVal_digitChar n (by omega)]
    · rw [readNat_append, ih (n / 10) (Nat.div_lt_self (by omega) (by omega))]
      simp [readNat, charVal_digitChar (n % 10) (Nat.mod_lt _ (by omega))]
      omega

theorem natChars_length_le : ∀ (k n : Nat), 1 ≤ k → n < 10 ^ k →
    (natChars n).length ≤ k := by
  intro k
  induction k with
  | zero => omega
  | succ k ih =>
    intro n _ hn
    rw [natChars_unfold]
    split
    · simp
    · rename_i h
      have hk : 1 ≤ k := by
        by_contra hk0
        have hz : k = 0 := by omega
        subst hz
        simp at hn
        omega
      have hdiv : n / 10 < 10 ^ k := by
        rw [Nat.div_lt_iff_lt_mul (by omega : 0 < 10)]
        calc n < 10 ^ (k + 1) := hn
        _ = 10 ^ k * 10 := by ring
      simp only [List.length_append, List.length_singleton]
      have := ih (n / 10) hk hdiv
      omega

theorem readNat_replicate_zero (m : Nat) :
    readNat (List.replicate m '0') = 0 := by
  induction m with
  | zero => rfl
  | succ m ih =>
    have : ∀ (l : List Char) (a : Nat), (∀ c ∈ l, charVal c = 0) →
        l.foldl (fun a c => a * 10 + charVal c) a = a * 10 ^ l.length := by
      intro l
      induction l with
      | nil => simp
      | cons c t iht =>
        intro a hc
        simp only [List.foldl_cons, List.length_cons]
        rw [hc c (by simp), iht (a * 10 + 0) (fun d hd => hc d (by simp [hd]))]
        ring
    simp only [readNat]
    rw [this _ 0 (fun c hc => by simp [List.eq_of_mem_replicate hc, charVal])]
    simp

theorem readNat_zfill (k : Nat) (l : List Char) :
    readNat (zfill k l) = readNat l := by
  simp only [zfill]
  rw [readNat_append, readNat_replicate_zero]
  simp

theorem zfill_length (k : Nat) (l : List Char) (h : l.length ≤ k) :
    (zfill k l).length = k := by
  simp [zfill]
  omega

theorem zfill_all_digits (k : Nat) (l : List Char)
    (h : ∀ c ∈ l, isDigitChar c = true) :
    ∀ c ∈ zfill k l, isDigitChar c = true := by
  intro c hc
  simp only [zfill, List.mem_append] at hc
  rcases hc with hc | hc
  · rw [List.eq_of_mem_replicate hc]
    decide
  · exact h c hc

theorem pyZfill_of_digits (k : Nat) (l : List Char) (hne : l ≠ [])
    (h : ∀ c ∈ l, isDigitChar c = true) : pyZfill k l = zfill k l := by
  cases l with
  | nil => exact absurd rfl hne
  | cons c rest =>
    have hc := h c (by simp)
    have hns : ¬ (c = '-' ∨ c = '+') := by
      rintro (rfl | rfl) <;> exact absurd hc (by decide)
    simp only [pyZfill, if_neg hns]

/-- `pad` of a nonnegative int is plain zero fill of its digits. -/
theorem pad_nonneg (x : Int) (hx : 0 ≤ x) (k : Nat) :
    pad x k = zfill k (natChars x.toNat) := by
  have hna : x.natAbs = x.toNat := by omega
  simp only [pad, intChars, if_neg (by omega : ¬ x < 0), hna]
  exact pyZfill_of_digits _ _ (natChars_ne_nil _) (natChars_all_digits _)

theorem readNat_lt (l : List Char) (h : ∀ c ∈ l, isDigitChar c = true) :
    readNat l < 10 ^ l.length := by
  induction l with
  | nil => simp [readNat]
  | cons c t ih =>
    have hc := h c (by simp)
    have : readNat (c :: t) = charVal c * 10 ^ t.length + readNat t := by
      have := readNat_append [c] t
      simpa [readNat] using this
    rw [this]
    have h1 : charVal c ≤ 9 := by
      simp [isDigitChar] at hc
      simp [charVal]
      omega
    have h2 := ih (fun d hd => h d (by simp [hd]))
    have : 10 ^ (c :: t).length = 10 * 10 ^ t.length := by
      simp [List.length_cons]
      ring
    rw [this]
    nlinarith

theorem takeDigitsUpTo_exact (l : List Char) :
    ∀ (k : Nat) (rest : List Char), (∀ c ∈ l, isDigitChar c = true) →
    l.length = k → takeDigitsUpTo k (l ++ rest) = (l, rest) := by
  induction l with
  | nil =>
    intro k rest _ hl
    subst hl
    rfl
  | cons c t ih =>
    intro k rest h hl
    subst hl
    simp only [List.length_cons, List.cons_append, takeDigitsUpTo, h c (by simp),
      if_pos, List.append_eq]
    rw [ih t.length rest (fun d hd => h d (by simp [hd])) rfl]

/-- The padded rendering of a value below `10^k` reads back as the value. -/
theorem readNat_pad (x : Int) (hx : 0 ≤ x) (k : Nat) :
    readNat (pad x k) = x.toNat := by
  rw [pad_nonneg x hx, readNat_zfill, readNat_natChars]

theorem pad_length (x : Int) (hx : 0 ≤ x) (k : Nat) (hk : 1 ≤ k)
    (hb : x < 10 ^ k) : (pad x k).length = k := by
  rw [pad_nonneg x hx]
  apply zfill_length
  apply natChars_length_le k _ hk
  have h2 : ((10 ^ k : Nat) : Int) = (10 : Int) ^ k := by push_cast; ring
  omega

theorem pad_all_digits (x : Int) (hx : 0 ≤ x) (k : Nat) :
    ∀ c ∈ pad x k, isDigitChar c = true := by
  rw [pad_nonneg x hx]
  exact zfill_all_digits _ _ (natChars_all_digits _)

/-! ### Shape and validity of constructed values -/

theorem list_six {α : Type _} (l : List α) (h : l.length = 6) :
    ∃ a b c d e f, l = [a, b, c, d, e, f] := by
  rcases l with _ | ⟨a, _ | ⟨b, _ | ⟨c, _ | ⟨d, _ | ⟨e, _ | ⟨f, _ | ⟨g, t⟩⟩⟩⟩⟩⟩⟩ <;>
    simp_all

theorem normalize_length (c : List (Option Int)) :
    (normalizeComponents c).length = 6 := by
  simp [normalizeComponents]

/-- A passed validation implies the year is populated. -/
theorem validate_ok_year_isSome (c : List (Option Int))
    (h : validateDatetime c = .ok ()) : (c.getD 0 none).isSome := by
  unfold validateDatetime at h
  rcases h0 : c.getD 0 none with _ | y <;> rw [h0] at h
  · exact absurd h (by simp)
  · rfl

theorem validate_ok_year (c : List (Option Int))
    (h : validateDatetime c = .ok ()) :
    ∀ y, c.getD 0 none = some y → 1 ≤ y ∧ y ≤ 9999 := by
  intro y h0
  unfold validateDatetime at h
  rw [h0] at h
  dsimp only at h
  split at h
  · exact absurd h (by simp)
  · omega

theorem validate_ok_month (c : List (Option Int))
    (h : validateDatetime c = .ok ()) :
    ∀ mo, c.getD 1 none = some mo → 1 ≤ mo ∧ mo ≤ 12 := by
  intro mo h1
  obtain ⟨y, h0⟩ := Option.isSome_iff_exists.mp (validate_ok_year_isSome c h)
  unfold validateDatetime at h
  rw [h0] at h
  dsimp only at h
  split at h
  · exact absurd h (by simp)
  rw [h1] at h
  dsimp only at h
  split at h
  · exact absurd h (by simp)
  · omega

theorem validate_ok_day (c : List (Option Int))
    (h : validateDatetime c = .ok ()) :
    ∀ y mo d, c.getD 0 none = some y → c.getD 1 none = some mo →
      c.getD 2 none = some d → 1 ≤ d ∧ d ≤ daysInMonth y mo := by
  intro y mo d h0 h1 h2
  unfold validateDatetime at h
  rw [h0] at h
  dsimp only at h
  split at h
  · exact absurd h (by simp)
  rw [h1] at h
  dsimp only at h
  split at h
  · exact absurd h (by simp)
  rw [h2] at h
  dsimp only at h
  split at h
  · exact absurd h (by simp)
  · rename_i hd
    omega

theorem validate_ok_hour (c : List (Option Int))
    (h : validateDatetime c = .ok ()) :
    ∀ y mo d hr, c.getD 0 none = some y → c.getD 1 none = some mo →
      c.getD 2 none = some d → c.getD 3 none = some hr →
      0 ≤ hr ∧ hr ≤ 23 := by
  intro y mo d hr h0 h1 h2 h3
  unfold validateDatetime at h
  rw [h0] at h
  dsimp only at h
  split at h
  · exact absurd h (by simp)
  rw [h1] at h
  dsimp only at h
  split at h
  · exact absurd h (by simp)
  rw [h2] at h
  dsimp only at h
  split at h
  · exact absurd h (by simp)
  rw [h3] at h
  dsimp only at h
  split at h
  · exact absurd h (by simp)
  · omega

theorem validate_ok_minute (c : List (Option Int))
    (h : validateDatetime c = .ok ()) :
    ∀ y mo d hr mi, c.getD 0 none = some y → c.getD 1 none = some mo →
      c.getD 2 none = some d → c.getD 3 none = some hr →
      c.getD 4 none = some mi → 0 ≤ mi ∧ mi ≤ 59 := by
  intro y mo d hr mi h0 h1 h2 h3 h4
  unfold validateDatetime at h
  rw [h0] at h
  dsimp only at h
  split at h
  · exact absurd h (by simp)
  rw [h1] at h
  dsimp only at h
  split at h
  · exact absurd h (by simp)
  rw [h2] at h
  dsimp only at h
  split at h
  · exact absurd h (by simp)
  rw [h3] at h
  dsimp only at h
  split at h
  · exact absurd h (by simp)
  rw [h4] at h
  dsimp only at h
  split at h
  · exact absurd h (by simp)
  · omega

theorem validate_ok_second (c : List (Option Int))
    (h : validateDatetime c = .ok ()) :
    ∀ y mo d hr mi s, c.getD 0 none = some y → c.getD 1 none = some mo →
      c.getD 2 none = some d → c.getD 3 none = some hr →
      c.getD 4 none = some mi → c.getD 5 none = some s →
      0 ≤ s ∧ s ≤ 59 := by
  intro y mo d hr mi s h0 h1 h2 h3 h4 h5
  unfold validateDatetime at h
  rw [h0] at h
  dsimp only at h
  split at h
  · exact absurd h (by simp)
  rw [h1] at h
  dsimp only at h
  split at h
  · exact absurd h (by simp)
  rw [h2] at h
  dsimp only at h
  split at h
  · exact absurd h (by simp)
  rw [h3] at h
  dsimp only at h
  split at h
  · exact absurd h (by simp)
  rw [h4] at h
  dsimp only at h
  split at h
  · exact absurd h (by simp)
  rw [h5] at h
  dsimp only at h
  split at h
  · exact absurd h (by simp)
  · omega

theorem getD_mapIdx {α : Type _} (dflt : α) :
    ∀ (l : List α) (f : Nat → α → α) (i : Nat), i < l.length →
    (l.mapIdx f).getD i dflt = f i (l.getD i dflt) := by
  intro l
  induction l with
  | nil => intro f i hi; simp at hi
  | cons a t ih =>
    intro f i hi
    rw [List.mapIdx_cons]
    cases i with
    | zero => simp
    | succ j =>
      simp only [List.getD_cons_succ]
      exact ih (fun k x => f (k + 1) x) j (by simpa using hi)

theorem fillDefaults_getD (c : List (Option Int)) (lo hi i : Nat)
    (h : i < c.length) :
    (fillDefaults c lo hi).getD i none =
      if lo ≤ i ∧ i ≤ hi ∧ (c.getD i none).isNone then some 0
      else c.getD i none := by
  simp only [fillDefaults]
  exact getD_mapIdx none c _ i h

theorem fillDefaults_length (c : List (Option Int)) (lo hi : Nat) :
    (fillDefaults c lo hi).length = c.length := by
  simp [fillDefaults]

theorem inferPrec_le (c : List (Option Int)) : inferPrec c ≤ 5 := by
  unfold inferPrec
  split_ifs <;> omega

theorem inferPrec_above (c : List (Option Int)) :
    ∀ i, inferPrec c < i → i < 6 → (c.getD i none).isSome = false := by
  unfold inferPrec
  split_ifs <;> intro i h1 h2 <;> interval_cases i <;> simp_all

theorem checkLowAndFill_ok (c : List (Option Int)) (p : Nat)
    (out : List (Option Int) × Nat) (h : checkLowAndFill c p = .ok out) :
    out.2 = p ∧ out.1 = fillDefaults c (min 3 (p + 1) - 1) p ∧
    (∀ i, i < min 3 (p + 1) → (c.getD i none).isSome = true) := by
  unfold checkLowAndFill at h
  split at h
  · exact absurd h (by simp)
  · rename_i hlow
    simp only [List.any_eq_true, List.mem_range, not_exists, not_and] at hlow
    injection h with h'
    refine ⟨by rw [← h'], by rw [← h'], ?_⟩
    intro i hi
    have := hlow i hi
    simp only [Option.isNone_iff_eq_none] at this
    cases hgi : c.getD i none with
    | none => exact absurd hgi this
    | some a => rfl

theorem presence_of_fill (c : List (Option Int)) (p : Nat)
    (hlen : c.length = 6) (hp : p ≤ 5)
    (hlow : ∀ i, i < min 3 (p + 1) → (c.getD i none).isSome = true)
    (habove : ∀ i, p < i → i < 6 → (c.getD i none).isSome = false) :
    ∀ i, i < 6 →
      (((fillDefaults c (min 3 (p + 1) - 1) p).getD i none).isSome ↔ i ≤ p) := by
  intro i hi
  rw [fillDefaults_getD c _ _ i (by omega)]
  by_cases hip : i ≤ p
  · simp only [hip, iff_true]
    rcases Nat.lt_or_ge i (min 3 (p + 1)) with hlo | hhi
    · have hsome := hlow i hlo
      cases hgi : c.getD i none with
      | none => rw [hgi] at hsome; simp at hsome
      | some a => simp [hgi]
    · cases hgi : c.getD i none with
      | none =>
        have hge : min 3 (p + 1) - 1 ≤ i := by omega
        simp [hgi, hge, hip]
      | some a => simp [hgi]
  · have hnone := habove i (by omega) hi
    have hgn : c.getD i none = none := by
      cases hx : c.getD i none
      · rfl
      · rw [hx] at hnone; simp at hnone
    rw [if_neg (fun hc => hip hc.2.1)]
    rw [hgn]
    simp [hip]

theorem determine_ok (c : List (Option Int)) (pr : Option (Fin 6))
    (out : List (Option Int) × Nat) (hlen : c.length = 6)
    (h : determinePrecision c pr = .ok out) :
    out.2 ≤ 5 ∧ out.1.length = 6 ∧
    (∀ i, i < 6 → ((out.1.getD i none).isSome ↔ i ≤ out.2)) ∧
    (∀ p, pr = some p → out.2 = p.val) := by
  cases pr with
  | some p =>
    unfold determinePrecision at h
    dsimp only at h
    split at h
    · exact absurd h (by simp)
    · rename_i habove
      simp only [List.any_eq_true, List.mem_range'_1, not_exists, not_and] at habove
      obtain ⟨hp2, hout1, hlow⟩ := checkLowAndFill_ok c p.val out h
      have hple : p.val ≤ 5 := by omega
      have habove' : ∀ i, p.val < i → i < 6 → (c.getD i none).isSome = false := by
        intro i h1 h2
        have := habove i ⟨by omega, by omega⟩
        simp only [Bool.not_eq_true] at this
        exact this
      refine ⟨by omega, ?_, ?_, ?_⟩
      · rw [hout1, fillDefaults_length]; exact hlen
      · rw [hout1, hp2]
        exact presence_of_fill c p.val hlen hple hlow habove'
      · intro q hq
        injection hq with hq'
        rw [hp2, ← hq']
  | none =>
    unfold determinePrecision at h
    obtain ⟨hp2, hout1, hlow⟩ := checkLowAndFill_ok c (inferPrec c) out h
    refine ⟨by rw [hp2]; exact inferPrec_le c, ?_, ?_, by intro q hq; cases hq⟩
    · rw [hout1, fillDefaults_length]; exact hlen
    · rw [hout1, hp2]
      exact presence_of_fill c (inferPrec c) hlen (inferPrec_le c) hlow
        (inferPrec_above c)

/-- Elimination for a successful construction: the result has the constructor
invariant, carries the given tzinfo, and an explicitly requested precision is
the result's precision. -/
theorem init_ok_shape (c : List (Option Int)) (tz : Option FlexiTimezone)
    (pr : Option (Fin 6)) (v : FuzzyDatetime)
    (h : FuzzyDatetime.init c tz pr = .ok v) :
    ValidShape v ∧ v._tzinfo = tz ∧ (∀ p, pr = some p → v._precision = p.val) := by
  unfold FuzzyDatetime.init at h
  cases hdp : determinePrecision (normalizeComponents c) pr with
  | error e => rw [hdp] at h; exact absurd h (by simp)
  | ok out =>
    obtain ⟨comps, prec⟩ := out
    rw [hdp] at h
    dsimp only at h
    cases hv : validateDatetime comps with
    | error e => rw [hv] at h; exact absurd h (by simp)
    | ok u =>
      rw [hv] at h
      dsimp only at h
      injection h with h'
      obtain ⟨h5, hlen6, hpres, hexp⟩ :=
        determine_ok (normalizeComponents c) pr (comps, prec)
          (normalize_length c) hdp
      subst h'
      exact ⟨⟨hlen6, h5, hpres, by cases u; exact hv⟩, rfl, hexp⟩

/-! ### Running the grammar matcher over rendered text -/

theorem matchTzTail_space (t : List Char) (hne : t ≠ [])
    (htz : ∀ c ∈ t, isTzChar c = true) :
    matchTzTail (' ' :: t) = some (some t) := by
  unfold matchTzTail
  dsimp only
  rw [if_pos (by decide : isPySpace ' ' = true)]
  have h1 : t.takeWhile isTzChar = t := List.takeWhile_eq_self_iff.mpr htz
  have h2 : t.dropWhile isTzChar = [] := List.dropWhile_eq_nil_iff.mpr htz
  rw [h1, h2, if_pos ⟨hne, rfl⟩]

theorem matchTzTail_suffix (o : Option (List Char))
    (h : ∀ tok, o = some tok → tok ≠ [] ∧ ∀ c ∈ tok, isTzChar c = true) :
    matchTzTail (tzSuffix o) = some o := by
  cases o with
  | none => rfl
  | some tok =>
    obtain ⟨hne, htz⟩ := h tok rfl
    exact matchTzTail_space tok hne htz

theorem matchSecondPart_end (g : DtGroups) (o : Option (List Char))
    (h : ∀ tok, o = some tok → tok ≠ [] ∧ ∀ c ∈ tok, isTzChar c = true) :
    matchSecondPart g (tzSuffix o) = some { g with tz := o } := by
  cases o with
  | none => rfl
  | some tok =>
    obtain ⟨hne, htz⟩ := h tok rfl
    show matchSecondPart g (' ' :: tok) = _
    unfold matchSecondPart
    dsimp only
    rw [if_neg (by decide : ¬ isTimeSep ' ' = true)]
    rw [matchTzTail_space tok hne htz]

theorem matchMinutePart_end (g : DtGroups) (o : Option (List Char))
    (h : ∀ tok, o = some tok → tok ≠ [] ∧ ∀ c ∈ tok, isTzChar c = true) :
    matchMinutePart g (tzSuffix o) = some { g with tz := o } := by
  cases o with
  | none => rfl
  | some tok =>
    obtain ⟨hne, htz⟩ := h tok rfl
    show matchMinutePart g (' ' :: tok) = _
    unfold matchMinutePart
    dsimp only
    rw [if_neg (by decide : ¬ isTimeSep ' ' = true)]
    rw [matchTzTail_space tok hne htz]

theorem matchDatetime_step (y4 rest : List Char) (h4 : y4.length = 4)
    (hd : ∀ c ∈ y4, isDigitChar c = true) :
    matchDatetime (y4 ++ rest) = matchMonthPart
      ⟨y4, none, none, none, none, none, none, none, none, none, none⟩ rest := by
  unfold matchDatetime
  rw [takeDigitsUpTo_exact y4 4 rest hd h4]
  dsimp only
  rw [if_pos h4]

theorem matchMonthPart_step (g : DtGroups) (c : Char) (m2 rest : List Char)
    (hc : isDateSep c = true) (h2 : m2.length = 2)
    (hd : ∀ x ∈ m2, isDigitChar x = true) :
    matchMonthPart g (c :: (m2 ++ rest)) =
      matchDayPart { g with sep1 := some c, month := some m2 } rest := by
  have hne : m2 ≠ [] := by intro hx; rw [hx] at h2; simp at h2
  unfold matchMonthPart
  dsimp only
  rw [if_pos hc, takeDigitsUpTo_exact m2 2 rest hd h2]
  dsimp only
  rw [if_pos hne]

theorem matchDayPart_step (g : DtGroups) (c : Char) (m2 rest : List Char)
    (hc : isDateSep c = true) (h2 : m2.length = 2)
    (hd : ∀ x ∈ m2, isDigitChar x = true) :
    matchDayPart g (c :: (m2 ++ rest)) =
      matchHourPart { g with sep2 := some c, day := some m2 } rest := by
  have hne : m2 ≠ [] := by intro hx; rw [hx] at h2; simp at h2
  unfold matchDayPart
  dsimp only
  rw [if_pos hc, takeDigitsUpTo_exact m2 2 rest hd h2]
  dsimp only
  rw [if_pos hne]

theorem matchHourPart_step (g : DtGroups) (m2 rest : List Char)
    (h2 : m2.length = 2) (hd : ∀ x ∈ m2, isDigitChar x = true) :
    matchHourPart g (' ' :: (m2 ++ rest)) =
      matchMinutePart { g with hour := some m2 } rest := by
  have hne : m2 ≠ [] := by intro hx; rw [hx] at h2; simp at h2
  unfold matchHourPart
  dsimp only
  rw [if_pos (by simp : (' ' : Char) = ' ' ∨ (' ' : Char) = 'T')]
  rw [takeDigitsUpTo_exact m2 2 rest hd h2]
  dsimp only
  rw [if_pos hne]

theorem matchMinutePart_step (g : DtGroups) (c : Char) (m2 rest : List Char)
    (hc : isTimeSep c = true) (h2 : m2.length = 2)
    (hd : ∀ x ∈ m2, isDigitChar x = true) :
    matchMinutePart g (c :: (m2 ++ rest)) =
      matchSecondPart { g with sep3 := some c, minute := some m2 } rest := by
  have hne : m2 ≠ [] := by intro hx; rw [hx] at h2; simp at h2
  unfold matchMinutePart
  dsimp only
  rw [if_pos hc, takeDigitsUpTo_exact m2 2 rest hd h2]
  dsimp only
  rw [if_pos hne]

theorem matchSecondPart_step (g : DtGroups) (c : Char) (m2 : List Char)
    (o : Option (List Char)) (hc : isTimeSep c = true) (h2 : m2.length = 2)
    (hd : ∀ x ∈ m2, isDigitChar x = true)
    (h : ∀ tok, o = some tok → tok ≠ [] ∧ ∀ ch ∈ tok, isTzChar ch = true) :
    matchSecondPart g (c :: (m2 ++ tzSuffix o)) =
      some { g with sep4 := some c, second := some m2, tz := o } := by
  have hne : m2 ≠ [] := by intro hx; rw [hx] at h2; simp at h2
  unfold matchSecondPart
  dsimp only
  rw [if_pos hc, takeDigitsUpTo_exact m2 2 (tzSuffix o) hd h2]
  dsimp only
  rw [if_pos hne, matchTzTail_suffix o h]

theorem matchMonthPart_done (g : DtGroups) : matchMonthPart g [] = some g := rfl

theorem matchDayPart_done (g : DtGroups) : matchDayPart g [] = some g := rfl

theorem matchHourPart_done (g : DtGroups) : matchHourPart g [] = some g := rfl

/-! ### Structural facts about the grammar matcher -/

theorem matchSecondPart_fields (g : DtGroups) (cs : List Char) (g' : DtGroups)
    (h : matchSecondPart g cs = some g') :
    g'.year = g.year ∧ g'.month = g.month ∧ g'.day = g.day ∧
    g'.hour = g.hour ∧ g'.minute = g.minute := by
  cases cs with
  | nil =>
    simp only [matchSecondPart] at h
    injection h with h'
    subst h'
    exact ⟨rfl, rfl, rfl, rfl, rfl⟩
  | cons c rest =>
    simp only [matchSecondPart] at h
    split at h
    · split at h
      · split at h
        · injection h with h'
          subst h'
          exact ⟨rfl, rfl, rfl, rfl, rfl⟩
        · exact absurd h (by simp)
      · split at h
        · injection h with h'
          subst h'
          exact ⟨rfl, rfl, rfl, rfl, rfl⟩
        · exact absurd h (by simp)
    · split at h
      · injection h with h'
        subst h'
        exact ⟨rfl, rfl, rfl, rfl, rfl⟩
      · exact absurd h (by simp)

theorem matchMinutePart_facts (g : DtGroups) (cs : List Char) (g' : DtGroups)
    (hsec : g.second = none) (h : matchMinutePart g cs = some g') :
    g'.year = g.year ∧ g'.month = g.month ∧ g'.day = g.day ∧ g'.hour = g.hour ∧
    (g'.second.isSome → g'.minute.isSome) := by
  cases cs with
  | nil =>
    simp only [matchMinutePart] at h
    injection h with h'
    subst h'
    exact ⟨rfl, rfl, rfl, rfl, by simp [hsec]⟩
  | cons c rest =>
    simp only [matchMinutePart] at h
    split at h
    · split at h
      · obtain ⟨hy, hmo, hd, hh, hm⟩ := matchSecondPart_fields _ _ _ h
        exact ⟨hy, hmo, hd, hh, fun _ => by simp [hm]⟩
      · split at h
        · injection h with h'
          subst h'
          exact ⟨rfl, rfl, rfl, rfl, by simp [hsec]⟩
        · exact absurd h (by simp)
    · split at h
      · injection h with h'
        subst h'
        exact ⟨rfl, rfl, rfl, rfl, by simp [hsec]⟩
      · exact absurd h (by simp)

theorem matchHourPart_facts (g : DtGroups) (cs : List Char) (g' : DtGroups)
    (hmin : g.minute = none) (hsec : g.second = none) (htz : g.tz = none)
    (h : matchHourPart g cs = some g') :
    g'.year = g.year ∧ g'.month = g.month ∧ g'.day = g.day ∧
    (g'.minute.isSome → g'.hour.isSome) ∧
    (g'.second.isSome → g'.minute.isSome) ∧
    (g'.tz.isSome → g'.hour.isSome) := by
  cases cs with
  | nil =>
    simp only [matchHourPart] at h
    injection h with h'
    subst h'
    exact ⟨rfl, rfl, rfl, by simp [hmin, hsec], by simp [hsec], by simp [htz]⟩
  | cons c rest =>
    simp only [matchHourPart] at h
    split at h
    · split at h
      · obtain ⟨hy, hmo, hd, hh, hsm⟩ := matchMinutePart_facts _ _ _ (by exact hsec) h
        exact ⟨hy, hmo, hd, fun _ => by simp [hh], hsm, fun _ => by simp [hh]⟩
      · exact absurd h (by simp)
    · exact absurd h (by simp)

theorem matchDayPart_facts (g : DtGroups) (cs : List Char) (g' : DtGroups)
    (hhour : g.hour = none) (hmin : g.minute = none) (hsec : g.second = none)
    (htz : g.tz = none) (h : matchDayPart g cs = some g') :
    g'.year = g.year ∧ g'.month = g.month ∧
    (g'.hour.isSome → g'.day.isSome) ∧
    (g'.minute.isSome → g'.hour.isSome) ∧
    (g'.second.isSome → g'.minute.isSome) ∧
    (g'.tz.isSome → g'.hour.isSome) := by
  cases cs with
  | nil =>
    simp only [matchDayPart] at h
    injection h with h'
    subst h'
    exact ⟨rfl, rfl, by simp [hhour], by simp [hmin], by simp [hsec],
      by simp [htz]⟩
  | cons c rest =>
    simp only [matchDayPart] at h
    split at h
    · split at h
      · obtain ⟨hy, hmo, hd, hmh, hsm, hth⟩ := matchHourPart_facts _ _ _ (by exact hmin) (by exact hsec) (by exact htz) h
        exact ⟨hy, hmo, fun _ => by simp [hd], hmh, hsm, hth⟩
      · exact absurd h (by simp)
    · exact absurd h (by simp)

theorem matchMonthPart_facts (g : DtGroups) (cs : List Char) (g' : DtGroups)
    (hday : g.day = none) (hhour : g.hour = none) (hmin : g.minute = none)
    (hsec : g.second = none) (htz : g.tz = none)
    (h : matchMonthPart g cs = some g') :
    g'.year = g.year ∧
    (g'.day.isSome → g'.month.isSome) ∧
    (g'.hour.isSome → g'.day.isSome) ∧
    (g'.minute.isSome → g'.hour.isSome) ∧
    (g'.second.isSome → g'.minute.isSome) ∧
    (g'.tz.isSome → g'.hour.isSome) := by
  cases cs with
  | nil =>
    simp only [matchMonthPart] at h
    injection h with h'
    subst h'
    exact ⟨rfl, by simp [hday], by simp [hhour], by simp [hmin], by simp [hsec],
      by simp [htz]⟩
  | cons c rest =>
    simp only [matchMonthPart] at h
    split at h
    · split at h
      · obtain ⟨hy, hmo, hhd, hmh, hsm, hth⟩ :=
          matchDayPart_facts _ _ _ (by exact hhour) (by exact hmin) (by exact hsec) (by exact htz) h
        exact ⟨hy, fun _ => by simp [hmo], hhd, hmh, hsm, hth⟩
      · exact absurd h (by simp)
    · exact absurd h (by simp)

/-- The grammar's cascading left-to-right dependency at the group level: a
lower-significance group can only be captured when all higher ones are, and a
timezone token only after an hour. -/
theorem matchDatetime_chain (cs : List Char) (g : DtGroups)
    (h : matchDatetime cs = some g) :
    (g.day.isSome → g.month.isSome) ∧
    (g.hour.isSome → g.day.isSome) ∧
    (g.minute.isSome → g.hour.isSome) ∧
    (g.second.isSome → g.minute.isSome) ∧
    (g.tz.isSome → g.hour.isSome) := by
  unfold matchDatetime at h
  dsimp only at h
  split at h
  · obtain ⟨_, hdm, hhd, hmh, hsm, hth⟩ :=
      matchMonthPart_facts _ _ _ rfl rfl rfl rfl rfl h
    exact ⟨hdm, hhd, hmh, hsm, hth⟩
  · exact absurd h (by simp)

/-! ### Facts about the timezone parser -/

theorem takeDigitsUpTo_sound (k : Nat) : ∀ (cs : List Char),
    (takeDigitsUpTo k cs).1.length ≤ k ∧
    (∀ c ∈ (takeDigitsUpTo k cs).1, isDigitChar c = true) := by
  induction k with
  | zero => intro cs; simp [takeDigitsUpTo]
  | succ k ih =>
    intro cs
    cases cs with
    | nil => simp [takeDigitsUpTo]
    | cons c rest =>
      simp only [takeDigitsUpTo]
      split
      · rename_i hc
        obtain ⟨h1, h2⟩ := ih rest
        refine ⟨by simpa using h1, ?_⟩
        intro d hd
        rcases List.mem_cons.mp hd with rfl | hd'
        · exact hc
        · exact h2 d hd'
      · simp

theorem tzLookup_mem (l : List (String × FlexiTimezone)) (k : String)
    (t : FlexiTimezone) (h : tzLookup l k = some t) : ∃ p ∈ l, p.2 = t := by
  unfold tzLookup at h
  cases hf : l.find? (fun p => p.1 == k) with
  | none => rw [hf] at h; simp at h
  | some p =>
    rw [hf] at h
    simp only [Option.map_some', Option.some.injEq] at h
    exact ⟨p, List.mem_of_find?_eq_some hf, h⟩

theorem byName_val_mem (k : String) (t : FlexiTimezone)
    (h : tzLookup all_timezones k = some t) : t ∈ all_timezones.map Prod.snd := by
  obtain ⟨p, hp, hpt⟩ := tzLookup_mem _ _ _ h
  rw [List.mem_map]
  exact ⟨p, hp, hpt⟩

theorem byAbbr_val_mem (k : String) (t : FlexiTimezone)
    (h : tzLookup all_timezones_by_abbr k = some t) :
    t ∈ all_timezones.map Prod.snd := by
  obtain ⟨p, hp, hpt⟩ := tzLookup_mem _ _ _ h
  unfold all_timezones_by_abbr at hp
  rw [List.mem_map] at hp
  obtain ⟨q, hq, hqp⟩ := hp
  rw [List.mem_map]
  exact ⟨q, hq, by rw [← hpt, ← hqp]⟩

theorem matchOffset_sound (cs : List Char) (go : OffsetGroups)
    (h : matchOffset cs = some go) :
    (∀ hm, go.colon = some hm →
      hm.1.length ≤ 2 ∧ (∀ c ∈ hm.1, isDigitChar c = true) ∧
      hm.2.length ≤ 2 ∧ (∀ c ∈ hm.2, isDigitChar c = true)) ∧
    (∀ d, go.compact = some d →
      d.length ≤ 4 ∧ (∀ c ∈ d, isDigitChar c = true)) := by
  unfold matchOffset at h
  dsimp only at h
  cases hsu : (stripUtc cs).2 with
  | nil => rw [hsu] at h; exact absurd h (by simp)
  | cons c r =>
    rw [hsu] at h
    dsimp only at h
    split at h
    · split at h
      · rename_i r2 heq
        split at h
        · exact absurd h (by simp)
        · split at h
          · injection h with h'
            subst h'
            constructor
            · intro hm hhm
              injection hhm with hhm'
              subst hhm'
              obtain ⟨ha1, ha2⟩ := takeDigitsUpTo_sound 2 r
              obtain ⟨hb1, hb2⟩ := takeDigitsUpTo_sound 2 r2
              exact ⟨ha1, ha2, hb1, hb2⟩
            · intro d hd
              cases hd
          · exact absurd h (by simp)
      · split at h
        · injection h with h'
          subst h'
          constructor
          · intro hm hhm
            cases hhm
          · intro d hd
            injection hd with hd'
            subst hd'
            obtain ⟨hb1, hb2⟩ := takeDigitsUpTo_sound 4 r
            exact ⟨hb1, hb2⟩
        · exact absurd h (by simp)
    · exact absurd h (by simp)

theorem registry_offset_bound :
    ∀ t ∈ all_timezones.map Prod.snd, t.offset.natAbs ≤ 6039 := by
  decide

theorem readNat_le_99 (l : List Char) (hlen : l.length ≤ 2)
    (hd : ∀ c ∈ l, isDigitChar c = true) : readNat l ≤ 99 := by
  have := readNat_lt l hd
  have h10 : (10 : Nat) ^ l.length ≤ 10 ^ 2 :=
    Nat.pow_le_pow_right (by omega) hlen
  simp at h10
  omega

/-- Elimination for a successful timezone parse: the result is a registry
entry or an anonymous numeric offset, and its offset is at most
99×60+99 = 6039 minutes in magnitude (the numeric pattern accepts up to
two-digit hours and two-digit minutes). -/
theorem tz_parse_ok (s : String) (A : Option (List String)) (t : FlexiTimezone)
    (h : FlexiTimezone.parse s A = .ok t) :
    TzFromParse t ∧ t.offset.natAbs ≤ 6039 := by
  unfold FlexiTimezone.parse at h
  dsimp only at h
  cases hname : tzLookup all_timezones (asciiLower s) with
  | some tz =>
    rw [hname] at h
    dsimp only at h
    split at h
    · injection h with h'
      subst h'
      have hm := byName_val_mem _ _ hname
      exact ⟨Or.inl hm, registry_offset_bound _ hm⟩
    · exact absurd h (by simp)
  | none =>
    rw [hname] at h
    dsimp only at h
    split at h
    · split at h
      · cases hutc : tzLookup all_timezones_by_abbr "utc" with
        | some tz =>
          rw [hutc] at h
          injection h with h'
          subst h'
          have hm := byAbbr_val_mem _ _ hutc
          exact ⟨Or.inl hm, registry_offset_bound _ hm⟩
        | none => rw [hutc] at h; exact absurd h (by simp)
      · exact absurd h (by simp)
    · cases habbr : tzLookup all_timezones_by_abbr (asciiLower s) with
      | some tz =>
        rw [habbr] at h
        dsimp only at h
        split at h
        · injection h with h'
          subst h'
          have hm := byAbbr_val_mem _ _ habbr
          exact ⟨Or.inl hm, registry_offset_bound _ hm⟩
        · exact absurd h (by simp)
      | none =>
        rw [habbr] at h
        dsimp only at h
        cases hoff : matchOffset (asciiLower s).data with
        | some go =>
          rw [hoff] at h
          dsimp only at h
          obtain ⟨hcol, hcom⟩ := matchOffset_sound _ _ hoff
          cases hc : go.colon with
          | some hm =>
            rw [hc] at h
            dsimp only at h
            split at h
            · exact absurd h (by simp)
            · split at h
              · exact absurd h (by simp)
              · injection h with h'
                subst h'
                obtain ⟨h1, h2, h3, h4⟩ := hcol hm hc
                have hh := readNat_le_99 hm.1 h1 h2
                have hmm := readNat_le_99 hm.2 h3 h4
                refine ⟨Or.inr ⟨rfl, rfl⟩, ?_⟩
                split <;> simp <;> omega
          | none =>
            rw [hc] at h
            dsimp only at h
            split at h
            · exact absurd h (by simp)
            · split at h
              · exact absurd h (by simp)
              · injection h with h'
                subst h'
                refine ⟨Or.inr ⟨rfl, rfl⟩, ?_⟩
                have h00 : readNat ['0'] = 0 := rfl
                cases hcc : go.compact with
                | none =>
                  simp only [hcc, Option.getD_none]
                  have hs0 : splitCompact [] = ([], ['0']) := rfl
                  rw [hs0]
                  have hr0 : readNat ([] : List Char) = 0 := rfl
                  rw [hr0, h00]
                  split <;> simp
                | some d =>
                  obtain ⟨hd1, hd2⟩ := hcom d hcc
                  simp only [hcc, Option.getD_some]
                  have hsplit : readNat (splitCompact d).1 ≤ 99 ∧
                      readNat (splitCompact d).2 ≤ 99 := by
                    unfold splitCompact
                    split
                    · exact ⟨readNat_le_99 d (by assumption) hd2, by rw [h00]; omega⟩
                    · split
                      · constructor
                        · apply readNat_le_99
                          · simp
                          · intro c hc'
                            exact hd2 c (List.take_subset _ _ hc')
                        · apply readNat_le_99
                          · simp; omega
                          · intro c hc'
                            exact hd2 c (List.drop_subset _ _ hc')
                      · constructor
                        · apply readNat_le_99
                          · simp
                          · intro c hc'
                            exact hd2 c (List.take_subset _ _ hc')
                        · apply readNat_le_99
                          · simp; omega
                          · intro c hc'
                            exact hd2 c (List.drop_subset _ _ hc')
                  split <;> simp <;> omega
        | none => rw [hoff] at h; exact absurd h (by simp)

/-! ### Elimination for a successful datetime parse -/

theorem inPrecisionOf_ge3 (g : DtGroups) (hm : g.month.isSome = true)
    (hd : g.day.isSome = true) (hh : g.hour.isSome = true) :
    3 ≤ (inPrecisionOf g).val := by
  unfold inPrecisionOf
  have hm' : g.month.isNone = false := by
    cases hx : g.month
    · rw [hx] at hm; simp at hm
    · rfl
  have hd' : g.day.isNone = false := by
    cases hx : g.day
    · rw [hx] at hd; simp at hd
    · rfl
  have hh' : g.hour.isNone = false := by
    cases hx : g.hour
    · rw [hx] at hh; simp at hh
    · rfl
  simp only [hm', hd', hh', Bool.false_eq_true, if_false]
  split_ifs <;> decide

theorem precisionCheck_eq_none_of (r : String) (p : Fin 6) (s : String)
    (h : r = "" ∨ ∃ req, DatePrecision.by_name r = some req ∧ req.val ≤ p.val) :
    precisionCheck r p s = none := by
  unfold precisionCheck
  rcases h with rfl | ⟨req, hb, hle⟩
  · simp
  · split
    · rfl
    · rw [hb]
      dsimp only
      rw [if_neg (by omega : ¬ p.val < req.val)]

theorem precisionCheck_none_elim (r : String) (p : Fin 6) (s : String)
    (h : precisionCheck r p s = none) :
    r = "" ∨ ∃ req, DatePrecision.by_name r = some req ∧ req.val ≤ p.val := by
  unfold precisionCheck at h
  split at h
  · left; assumption
  · right
    cases hb : DatePrecision.by_name r with
    | none => rw [hb] at h; simp at h
    | some req =>
      rw [hb] at h
      dsimp only at h
      split at h
      · simp at h
      · rename_i hnl
        exact ⟨req, rfl, by omega⟩

/-- Elimination for a successful `FuzzyDatetime.parse`: the value satisfies the
constructor invariant; a present timezone forces precision ≥ Hour and is a
registry entry or an anonymous numeric offset within 6039 minutes; and the
required precision (when any) resolves and is met. -/
theorem parse_ok_elim (source r : String) (sd st : Bool)
    (A : Option (List String)) (v : FuzzyDatetime)
    (h : FuzzyDatetime.parse source r sd st A = .ok v) :
    ValidShape v ∧
    (∀ t, v._tzinfo = some t →
      3 ≤ v._precision ∧ TzFromParse t ∧ t.offset.natAbs ≤ 6039) ∧
    (r = "" ∨ ∃ req, DatePrecision.by_name r = some req ∧
      req.val ≤ v._precision) := by
  unfold FuzzyDatetime.parse at h
  dsimp only at h
  cases hg : matchDatetime source.data with
  | none => rw [hg] at h; exact absurd h (by simp)
  | some g =>
    rw [hg] at h
    dsimp only at h
    cases hpc : precisionCheck r (inPrecisionOf g) source with
    | some e => rw [hpc] at h; exact absurd h (by simp)
    | none =>
      rw [hpc] at h
      dsimp only at h
      split at h
      · exact absurd h (by simp)
      split at h
      · exact absurd h (by simp)
      obtain ⟨hdm, hhd, hmh, hsm, hth⟩ := matchDatetime_chain _ _ hg
      cases htz : g.tz with
      | some tok =>
        rw [htz] at h
        dsimp only at h
        cases htp : FlexiTimezone.parse (String.mk tok)
            (some (A.getD dtAllTzFormats)) with
        | ok t =>
          rw [htp] at h
          dsimp only at h
          obtain ⟨hshape, htzv, hprec⟩ := init_ok_shape _ _ _ _ h
          have hpv := hprec _ rfl
          have hhour : g.hour.isSome = true := hth (by simp [htz])
          have hday : g.day.isSome = true := hhd hhour
          have hmonth : g.month.isSome = true := hdm hday
          refine ⟨hshape, ?_, ?_⟩
          · intro t' ht'
            rw [htzv] at ht'
            injection ht' with ht''
            subst ht''
            obtain ⟨hfrom, hbound⟩ := tz_parse_ok _ _ _ htp
            exact ⟨by rw [hpv]; exact inPrecisionOf_ge3 g hmonth hday hhour,
              hfrom, hbound⟩
          · have := precisionCheck_none_elim r (inPrecisionOf g) source hpc
            rcases this with hr | ⟨req, hb, hle⟩
            · exact Or.inl hr
            · exact Or.inr ⟨req, hb, by omega⟩
        | error e =>
          rw [htp] at h
          cases e <;> exact absurd h (by simp)
      | none =>
        rw [htz] at h
        dsimp only at h
        split at h
        · exact absurd h (by simp)
        · obtain ⟨hshape, htzv, hprec⟩ := init_ok_shape _ _ _ _ h
          have hpv := hprec _ rfl
          refine ⟨hshape, ?_, ?_⟩
          · intro t' ht'
            rw [htzv] at ht'
            cases ht'
          · have := precisionCheck_none_elim r (inPrecisionOf g) source hpc
            rcases this with hr | ⟨req, hb, hle⟩
            · exact Or.inl hr
            · exact Or.inr ⟨req, hb, by omega⟩

/-! ### Re-running the constructor on an already valid value -/

theorem mapIdx_eq_self {α : Type _} (dflt : α) :
    ∀ (l : List α) (f : Nat → α → α),
    (∀ i, i < l.length → f i (l.getD i dflt) = l.getD i dflt) → l.mapIdx f = l := by
  intro l
  induction l with
  | nil => intro f _; rfl
  | cons a t ih =>
    intro f h
    rw [List.mapIdx_cons]
    have h0 := h 0 (by simp)
    simp only [List.getD_cons_zero] at h0
    rw [h0]
    rw [ih (fun i x => f (i + 1) x) (fun i hi => by
      have := h (i + 1) (by simpa using Nat.succ_lt_succ hi)
      simpa using this)]

theorem normalize_id (c : List (Option Int)) (h : c.length = 6) :
    normalizeComponents c = c := by
  unfold normalizeComponents
  rw [← h, List.take_left]

theorem fillDefaults_eq_self (c : List (Option Int)) (lo hi : Nat)
    (h : ∀ i, i < c.length → lo ≤ i → i ≤ hi → (c.getD i none).isSome = true) :
    fillDefaults c lo hi = c := by
  unfold fillDefaults
  apply mapIdx_eq_self
  intro i hi'
  split
  · rename_i hcond
    have := h i hi' hcond.1 hcond.2.1
    rw [Option.isNone_iff_eq_none] at hcond
    rw [hcond.2.2] at this
    simp at this
  · rfl

/-- Re-constructing a value that already satisfies the invariant, at its own
precision, succeeds and changes nothing but the tzinfo slot. -/
theorem init_self (v : FuzzyDatetime) (hs : ValidShape v)
    (tz' : Option FlexiTimezone) (p : Fin 6) (hp : p.val = v._precision) :
    FuzzyDatetime.init v._components tz' (some p) =
      .ok ⟨v._components, v._precision, tz'⟩ := by
  obtain ⟨hlen, hple, hpres, hval⟩ := hs
  unfold FuzzyDatetime.init determinePrecision
  rw [normalize_id _ hlen]
  dsimp only
  rw [if_neg ?habove]
  case habove =>
    intro hany
    rw [List.any_eq_true] at hany
    obtain ⟨i, hmem, hsome⟩ := hany
    rw [List.mem_range'_1] at hmem
    have h6 : i < 6 := by omega
    have := (hpres i h6).mp hsome
    omega
  unfold checkLowAndFill
  rw [if_neg ?hlow]
  case hlow =>
    intro hany
    rw [List.any_eq_true] at hany
    obtain ⟨i, hmem, hnone⟩ := hany
    rw [List.mem_range] at hmem
    have h6 : i < 6 := by omega
    have hip : i ≤ v._precision := by rw [← hp]; omega
    have := (hpres i h6).mpr (by omega)
    rw [Option.isNone_iff_eq_none] at hnone
    rw [hnone] at this
    simp at this
  dsimp only
  rw [fillDefaults_eq_self _ _ _ (fun i hi' _ hhi => by
    have h6 : i < 6 := by rw [hlen] at hi'; exact hi'
    exact (hpres i h6).mpr (by omega))]
  rw [hval]
  rw [hp]

/-! ### Rendering a timezone and parsing it back -/

theorem map_fix {α : Type _} (f : α → α) : ∀ (l : List α),
    (∀ c ∈ l, f c = c) → l.map f = l := by
  intro l
  induction l with
  | nil => intro _; rfl
  | cons a t ih =>
    intro h
    simp only [List.map_cons]
    rw [h a (by simp), ih (fun c hc => h c (by simp [hc]))]

theorem lowerChar_fix (c : Char) (h : c.toNat < 65 ∨ 90 < c.toNat) :
    lowerChar c = c := by
  unfold lowerChar
  rw [if_neg (by omega)]

theorem lowerChar_digit (c : Char) (h : isDigitChar c = true) : lowerChar c = c := by
  apply lowerChar_fix
  simp only [isDigitChar, Bool.decide_and, Bool.and_eq_true, decide_eq_true_eq] at h
  omega

theorem asciiLower_fix (l : List Char) (h : ∀ c ∈ l, lowerChar c = c) :
    asciiLower (String.mk l) = String.mk l := by
  unfold asciiLower
  rw [map_fix lowerChar l h]

theorem beq_false_of_data_head (s t : String) (a b : Char) (la lb : List Char)
    (hs : s.data = a :: la) (ht : t.data = b :: lb) (hab : a ≠ b) :
    (s == t) = false := by
  rw [beq_eq_false_iff_ne]
  intro he
  rw [he, ht] at hs
  injection hs with h1 _
  exact hab h1.symm

theorem tz_name_lookup_sign (c : Char) (r : List Char) (hc : c = '+' ∨ c = '-') :
    tzLookup all_timezones (String.mk (c :: r)) = none := by
  have h1 : (asciiLower "UTC" == String.mk (c :: r)) = false :=
    beq_false_of_data_head _ _ 'u' c _ r rfl rfl
      (by rcases hc with rfl | rfl <;> decide)
  have h2 : (asciiLower "Asia/Tokyo" == String.mk (c :: r)) = false :=
    beq_false_of_data_head _ _ 'a' c _ r rfl rfl
      (by rcases hc with rfl | rfl <;> decide)
  have h3 : (asciiLower "America/New_York" == String.mk (c :: r)) = false :=
    beq_false_of_data_head _ _ 'a' c _ r rfl rfl
      (by rcases hc with rfl | rfl <;> decide)
  simp [tzLookup, all_timezones, TZ_MAP, List.find?, h1, h2, h3]

theorem tz_abbr_lookup_sign (c : Char) (r : List Char) (hc : c = '+' ∨ c = '-') :
    tzLookup all_timezones_by_abbr (String.mk (c :: r)) = none := by
  have h1 : (asciiLower "UTC" == String.mk (c :: r)) = false :=
    beq_false_of_data_head _ _ 'u' c _ r rfl rfl
      (by rcases hc with rfl | rfl <;> decide)
  have h2 : (asciiLower "JST" == String.mk (c :: r)) = false :=
    beq_false_of_data_head _ _ 'j' c _ r rfl rfl
      (by rcases hc with rfl | rfl <;> decide)
  have h3 : (asciiLower "EST" == String.mk (c :: r)) = false :=
    beq_false_of_data_head _ _ 'e' c _ r rfl rfl
      (by rcases hc with rfl | rfl <;> decide)
  simp [tzLookup, all_timezones_by_abbr, all_timezones, TZ_MAP, List.find?,
    h1, h2, h3]

theorem mk_sign_ne_z (c : Char) (r : List Char) (hc : c = '+' ∨ c = '-') :
    ¬ (String.mk (c :: r) = "z") := by
  intro he
  have hd := congrArg String.data he
  rw [show ("z" : String).data = ['z'] from rfl] at hd
  injection hd with h1 _
  rcases hc with rfl | rfl <;> exact absurd h1 (by decide)

theorem list_two {α : Type _} (l : List α) (h : l.length = 2) :
    ∃ a b, l = [a, b] := by
  rcases l with _ | ⟨a, _ | ⟨b, _ | ⟨c, t⟩⟩⟩ <;> simp_all

theorem matchOffset_pm4 (c : Char) (hc : c = '+' ∨ c = '-') (h2 m2 : List Char)
    (hh : h2.length = 2) (hm : m2.length = 2)
    (hhd : ∀ x ∈ h2, isDigitChar x = true) (hmd : ∀ x ∈ m2, isDigitChar x = true) :
    matchOffset (c :: (h2 ++ m2)) = some ⟨false, c, none, some (h2 ++ m2)⟩ := by
  have hsu : stripUtc (c :: (h2 ++ m2)) = (false, c :: (h2 ++ m2)) := by
    rcases hc with rfl | rfl <;> rfl
  unfold matchOffset
  dsimp only
  rw [hsu]
  dsimp only
  rw [if_pos hc]
  rw [takeDigitsUpTo_exact h2 2 m2 hhd hh]
  dsimp only
  obtain ⟨b1, b2, hb⟩ := list_two m2 hm
  have hb1 : isDigitChar b1 = true := hmd b1 (by simp [hb])
  have hb1ne : b1 ≠ ':' := by
    intro he
    rw [he] at hb1
    exact absurd hb1 (by decide)
  rw [hb]
  split
  · rename_i r2 heq
    injection heq with hx _
    exact absurd hx hb1ne
  · have hlen4 : (h2 ++ m2).length = 4 := by simp [hh, hm]
    have hdig : ∀ x ∈ h2 ++ m2, isDigitChar x = true := by
      intro x hx
      rcases List.mem_append.mp hx with hx' | hx'
      · exact hhd x hx'
      · exact hmd x hx'
    have := takeDigitsUpTo_exact (h2 ++ m2) 4 [] hdig hlen4
    rw [List.append_nil] at this
    rw [← hb, this]
    dsimp only
    rw [if_pos ⟨by
      intro he
      rw [he] at hlen4
      simp at hlen4, rfl⟩]

theorem take_drop_append_exact {α : Type _} (l1 l2 : List α) (n : Nat)
    (h : l1.length = n) : (l1 ++ l2).take n = l1 ∧ (l1 ++ l2).drop n = l2 := by
  subst h
  exact ⟨List.take_left _ _, List.drop_left _ _⟩

theorem format_offset_numeric (off : Int) :
    FlexiTimezone.format_offset ⟨off, none, none⟩ false "" =
      String.mk ((if off < 0 then '-' else '+') ::
        (zfill 2 (natChars (off.natAbs / 60)) ++
          zfill 2 (natChars (off.natAbs % 60)))) := by
  apply String.ext
  unfold FlexiTimezone.format_offset FlexiTimezone.hour_offset
    FlexiTimezone.min_offset
  simp only [String.data_append, Bool.false_eq_true, if_false]
  split <;> simp

/-- Rendering a parsed timezone with the default `to_string` format ranking
and re-parsing the rendered token recovers the offset (in fact the same
timezone value), provided a bare numeric offset is below 100 hours — the
compact form `+hhmm` re-parses only while the hour part has two digits. -/
theorem tz_render_reparse (t : FlexiTimezone) (hfrom : TzFromParse t)
    (hb : t.offset.natAbs < 6000) :
    ∃ tok t', FlexiTimezone.try_format t ["abbr", "name", "+hhmm"] =
        .ok (String.mk tok) ∧
      tok ≠ [] ∧ (∀ c ∈ tok, isTzChar c = true) ∧
      FlexiTimezone.parse (String.mk tok) (some dtAllTzFormats) = .ok t' ∧
      t'.offset = t.offset := by
  rcases hfrom with hmem | ⟨habbr, hname⟩
  · simp only [all_timezones, TZ_MAP, List.map, List.mem_cons] at hmem
    rcases hmem with rfl | rfl | rfl | hfalse
    · exact ⟨"UTC".data, _, by decide, by decide, by decide, by decide, rfl⟩
    · exact ⟨"JST".data, _, by decide, by decide, by decide, by decide, rfl⟩
    · exact ⟨"EST".data, _, by decide, by decide, by decide, by decide, rfl⟩
    · exact absurd hfalse (by simp)
  · obtain ⟨off, abbr, nm⟩ := t
    cases habbr
    cases hname
    simp only at hb
    have hp100 : (10 : Nat) ^ 2 = 100 := by norm_num
    have hsgn2 : (if off < 0 then '-' else '+') = '+' ∨
        (if off < 0 then '-' else '+') = '-' := by
      split <;> simp
    have hz1len : (zfill 2 (natChars (off.natAbs / 60))).length = 2 :=
      zfill_length 2 _ (natChars_length_le 2 _ (by omega) (by omega))
    have hz2len : (zfill 2 (natChars (off.natAbs % 60))).length = 2 :=
      zfill_length 2 _ (natChars_length_le 2 _ (by omega) (by omega))
    have hz1d : ∀ x ∈ zfill 2 (natChars (off.natAbs / 60)), isDigitChar x = true :=
      zfill_all_digits 2 _ (natChars_all_digits _)
    have hz2d : ∀ x ∈ zfill 2 (natChars (off.natAbs % 60)), isDigitChar x = true :=
      zfill_all_digits 2 _ (natChars_all_digits _)
    refine ⟨(if off < 0 then '-' else '+') ::
      (zfill 2 (natChars (off.natAbs / 60)) ++ zfill 2 (natChars (off.natAbs % 60))),
      ⟨off, none, none⟩, ?_, by simp, ?_, ?_, rfl⟩
    · rw [show FlexiTimezone.try_format ⟨off, none, none⟩ ["abbr", "name", "+hhmm"] =
          .ok (FlexiTimezone.format_offset ⟨off, none, none⟩ false "") from rfl]
      rw [format_offset_numeric off]
    · intro x hx
      rcases List.mem_cons.mp hx with rfl | hx'
      · rcases hsgn2 with h' | h' <;> rw [h'] <;> decide
      · have hdx : isDigitChar x = true := by
          rcases List.mem_append.mp hx' with h' | h'
          · exact hz1d x h'
          · exact hz2d x h'
        simp only [isTzChar]
        simp [hdx]
    · have hfix : asciiLower (String.mk ((if off < 0 then '-' else '+') ::
          (zfill 2 (natChars (off.natAbs / 60)) ++ zfill 2 (natChars (off.natAbs % 60))))) =
          String.mk ((if off < 0 then '-' else '+') ::
          (zfill 2 (natChars (off.natAbs / 60)) ++ zfill 2 (natChars (off.natAbs % 60)))) := by
        apply asciiLower_fix
        intro x hx
        rcases List.mem_cons.mp hx with rfl | hx'
        · rcases hsgn2 with h' | h' <;> rw [h'] <;> decide
        · rcases List.mem_append.mp hx' with h' | h'
          · exact lowerChar_digit x (hz1d x h')
          · exact lowerChar_digit x (hz2d x h')
      unfold FlexiTimezone.parse
      dsimp only
      rw [hfix]
      rw [tz_name_lookup_sign _ _ hsgn2]
      dsimp only
      rw [if_neg (mk_sign_ne_z _ _ hsgn2)]
      rw [tz_abbr_lookup_sign _ _ hsgn2]
      dsimp only
      rw [matchOffset_pm4 _ hsgn2 _ _ hz1len hz2len hz1d hz2d]
      dsimp only
      rw [if_neg (by simp), if_neg (by decide)]
      obtain ⟨hta, hda⟩ := take_drop_append_exact
        (zfill 2 (natChars (off.natAbs / 60)))
        (zfill 2 (natChars (off.natAbs % 60))) 2 hz1len
      have hsplit : splitCompact (zfill 2 (natChars (off.natAbs / 60)) ++
          zfill 2 (natChars (off.natAbs % 60))) =
          (zfill 2 (natChars (off.natAbs / 60)), zfill 2 (natChars (off.natAbs % 60))) := by
        unfold splitCompact
        rw [if_neg (by simp [hz1len, hz2len]), if_neg (by simp [hz1len, hz2len])]
        rw [hta, hda]
      simp only [Option.getD_some]
      rw [hsplit]
      dsimp only
      rw [readNat_zfill, readNat_natChars, readNat_zfill, readNat_natChars]
      have harith : (off.natAbs / 60) * 60 + off.natAbs % 60 = off.natAbs := by
        omega
      by_cases h0 : off < 0
      · rw [if_pos h0, if_pos rfl]
        simp only [Except.ok.injEq, FlexiTimezone.mk.injEq, and_true]
        rw [harith]
        omega
      · rw [if_neg h0, if_neg (by decide : ¬ ('+' : Char) = '-')]
        simp only [Except.ok.injEq, FlexiTimezone.mk.injEq, and_true]
        rw [harith]
        omega

/-! ### The parse pipeline after a successful grammar match -/

theorem mk_ne_empty (tok : List Char) (h : tok ≠ []) : String.mk tok ≠ "" := by
  intro he
  have hd := congrArg String.data he
  rw [show ("" : String).data = [] from rfl] at hd
  exact h hd

theorem cast_readNat_pad (x : Int) (hx : 0 ≤ x) (k : Nat) :
    ((readNat (pad x k) : Nat) : Int) = x := by
  rw [readNat_pad x hx]
  exact Int.toNat_of_nonneg hx

theorem pad2_len (x : Int) (h0 : 0 ≤ x) (h99 : x ≤ 99) : (pad x 2).length = 2 := by
  apply pad_length x h0 2 (by omega)
  have : (10 : Int) ^ 2 = 100 := by norm_num
  omega

theorem pad4_len (x : Int) (h0 : 0 ≤ x) (hb : x ≤ 9999) :
    (pad x 4).length = 4 := by
  apply pad_length x h0 4 (by omega)
  have : (10 : Int) ^ 4 = 10000 := by norm_num
  omega

theorem daysInMonth_le31 (y m : Int) : daysInMonth y m ≤ 31 := by
  unfold daysInMonth
  split_ifs <;> omega

theorem matchMonthPart_last (g : DtGroups) (c : Char) (m2 : List Char)
    (hc : isDateSep c = true) (h2 : m2.length = 2)
    (hd : ∀ x ∈ m2, isDigitChar x = true) :
    matchMonthPart g (c :: m2) =
      matchDayPart { g with sep1 := some c, month := some m2 } [] := by
  have := matchMonthPart_step g c m2 [] hc h2 hd
  rwa [List.append_nil] at this

theorem matchDayPart_last (g : DtGroups) (c : Char) (m2 : List Char)
    (hc : isDateSep c = true) (h2 : m2.length = 2)
    (hd : ∀ x ∈ m2, isDigitChar x = true) :
    matchDayPart g (c :: m2) =
      matchHourPart { g with sep2 := some c, day := some m2 } [] := by
  have := matchDayPart_step g c m2 [] hc h2 hd
  rwa [List.append_nil] at this

/-- The whole `parse` pipeline on a string whose grammar match and
precision check are known, with the default separator flags and timezone
forms. -/
theorem parse_of_match (out : List Char) (r : String) (g : DtGroups)
    (hm : matchDatetime out = some g)
    (hpc : precisionCheck r (inPrecisionOf g) (String.mk out) = none) :
    FuzzyDatetime.parse (String.mk out) r false false none =
      (match g.tz with
      | some tok =>
        match FlexiTimezone.parse (String.mk tok) (some dtAllTzFormats) with
        | .ok t =>
          FuzzyDatetime.init (groupComponents g) (some t) (some (inPrecisionOf g))
        | .error (.timezoneFormatError _) =>
          .error (.timezoneFormatError (String.mk out))
        | .error e => .error e
      | none =>
        FuzzyDatetime.init (groupComponents g) none (some (inPrecisionOf g))) := by
  unfold FuzzyDatetime.parse
  dsimp only
  rw [hm]
  dsimp only
  rw [hpc]
  dsimp only
  rw [if_neg (by simp), if_neg (by simp)]
  cases g.tz with
  | some tok => rfl
  | none =>
    rw [if_neg (by decide)]

theorem registry_offset_small :
    ∀ t ∈ all_timezones.map Prod.snd, t.offset.natAbs < 6000 := by
  decide

/-- **C1** (amended): for every value `v` produced by `FuzzyDatetime.parse`
whose timezone, when it is a bare numeric offset (no abbreviation), resolves
to strictly less than 6000 minutes in magnitude, re-parsing
`v.to_string(zero_pad=True, '/', ':')` at the same required precision yields a
value equal to `v` in every populated component and in precision, and with the
same resolved UTC offset (the textual timezone form may differ). -/
theorem c1_roundtrip (source r : String) (sd st : Bool)
    (A : Option (List String)) (v : FuzzyDatetime)
    (h : FuzzyDatetime.parse source r sd st A = .ok v)
    (hnum : ∀ t, v._tzinfo = some t → t.abbreviation = none →
      t.offset.natAbs < 6000) :
    ∃ out v',
      FuzzyDatetime.to_string v true "/" ":" ["abbr", "name", "+hhmm"] = .ok out ∧
      FuzzyDatetime.parse out r false false none = .ok v' ∧
      v'._components = v._components ∧ v'._precision = v._precision ∧
      (v._tzinfo = none ↔ v'._tzinfo = none) ∧
      (∀ t t', v._tzinfo = some t → v'._tzinfo = some t' →
        t'.offset = t.offset) := by
  obtain ⟨⟨hlen, hple, hpres, hval⟩, htzf, hreq⟩ := parse_ok_elim source r sd st A v h
  obtain ⟨comps, prec, tzv⟩ := v
  obtain ⟨x0, x1, x2, x3, x4, x5, hc6⟩ := list_six comps hlen
  subst hc6
  have hsmall : ∀ t, tzv = some t → t.offset.natAbs < 6000 := by
    intro t ht
    rcases (htzf t ht).2.1 with hmem | ⟨ha, _⟩
    · exact registry_offset_small t hmem
    · exact hnum t ht ha
  interval_cases prec
  -- precision Year
  · have h0' : x0.isSome = true ↔ 0 ≤ 0 := hpres 0 (by omega)
    obtain ⟨y, rfl⟩ := Option.isSome_iff_exists.mp (h0'.mpr (by omega))
    have h1' : x1.isSome = true ↔ 1 ≤ 0 := hpres 1 (by omega)
    have hx1 : x1 = none := by
      cases hx : x1
      · rfl
      · rw [hx] at h1'; simp at h1'
    subst hx1
    have h2' : x2.isSome = true ↔ 2 ≤ 0 := hpres 2 (by omega)
    have hx2 : x2 = none := by
      cases hx : x2
      · rfl
      · rw [hx] at h2'; simp at h2'
    subst hx2
    have h3' : x3.isSome = true ↔ 3 ≤ 0 := hpres 3 (by omega)
    have hx3 : x3 = none := by
      cases hx : x3
      · rfl
      · rw [hx] at h3'; simp at h3'
    subst hx3
    have h4' : x4.isSome = true ↔ 4 ≤ 0 := hpres 4 (by omega)
    have hx4 : x4 = none := by
      cases hx : x4
      · rfl
      · rw [hx] at h4'; simp at h4'
    subst hx4
    have h5' : x5.isSome = true ↔ 5 ≤ 0 := hpres 5 (by omega)
    have hx5 : x5 = none := by
      cases hx : x5
      · rfl
      · rw [hx] at h5'; simp at h5'
    subst hx5
    have htznone : tzv = none := by
      cases htzv : tzv
      · rfl
      · have h3 := (htzf _ htzv).1
        dsimp only at h3
        omega
    subst htznone
    have hy := validate_ok_year _ hval y rfl
    have hy4 := pad4_len y (by omega) (by omega)
    have hy4d := pad_all_digits y (by omega) 4
    have hrender : FuzzyDatetime.to_string
        ⟨[some y, none, none, none, none, none], 0, none⟩
        true "/" ":" ["abbr", "name", "+hhmm"] =
        .ok (String.mk (pad y 4 ++ ([] : List Char))) := by
      simp only [FuzzyDatetime.to_string, FuzzyDatetime.year, FuzzyDatetime.month,
        FuzzyDatetime.day, FuzzyDatetime.hour, FuzzyDatetime.minute,
        FuzzyDatetime.second, List.getD, List.take, List.foldl]
      simp [pure, Except.pure]
    have hmatch : matchDatetime (pad y 4 ++ ([] : List Char)) =
        some ⟨pad y 4, none, none, none, none, none, none, none, none, none, none⟩ := by
      rw [matchDatetime_step _ _ hy4 hy4d]
      exact matchMonthPart_done _
    have hpc : precisionCheck r
        (inPrecisionOf ⟨pad y 4, none, none, none, none, none, none, none,
          none, none, none⟩) (String.mk (pad y 4 ++ ([] : List Char))) = none := by
      apply precisionCheck_eq_none_of
      exact hreq
    have hpipe := parse_of_match _ r _ hmatch hpc
    have hgc : groupComponents ⟨pad y 4, none, none, none, none, none, none,
        none, none, none, none⟩ = [some y, none, none, none, none, none] := by
      simp only [groupComponents, Option.map_some', Option.map_none']
      rw [cast_readNat_pad y (by omega) 4]
    have hinit := init_self ⟨[some y, none, none, none, none, none], 0, none⟩
      ⟨by simp, by omega, hpres, hval⟩ none 0 rfl
    refine ⟨_, ⟨[some y, none, none, none, none, none], 0, none⟩, hrender, ?_,
      rfl, rfl, by simp, by simp⟩
    rw [hpipe]
    dsimp only
    rw [hgc]
    exact hinit
  -- precision Month
  · have h0' : x0.isSome = true ↔ 0 ≤ 1 := hpres 0 (by omega)
    obtain ⟨y, rfl⟩ := Option.isSome_iff_exists.mp (h0'.mpr (by omega))
    have h1' : x1.isSome = true ↔ 1 ≤ 1 := hpres 1 (by omega)
    obtain ⟨mo, rfl⟩ := Option.isSome_iff_exists.mp (h1'.mpr (by omega))
    have h2' : x2.isSome = true ↔ 2 ≤ 1 := hpres 2 (by omega)
    have hx2 : x2 = none := by
      cases hx : x2
      · rfl
      · rw [hx] at h2'; simp at h2'
    subst hx2
    have h3' : x3.isSome = true ↔ 3 ≤ 1 := hpres 3 (by omega)
    have hx3 : x3 = none := by
      cases hx : x3
      · rfl
      · rw [hx] at h3'; simp at h3'
    subst hx3
    have h4' : x4.isSome = true ↔ 4 ≤ 1 := hpres 4 (by omega)
    have hx4 : x4 = none := by
      cases hx : x4
      · rfl
      · rw [hx] at h4'; simp at h4'
    subst hx4
    have h5' : x5.isSome = true ↔ 5 ≤ 1 := hpres 5 (by omega)
    have hx5 : x5 = none := by
      cases hx : x5
      · rfl
      · rw [hx] at h5'; simp at h5'
    subst hx5
    have htznone : tzv = none := by
      cases htzv : tzv
      · rfl
      · have h3 := (htzf _ htzv).1
        dsimp only at h3
        omega
    subst htznone
    have hy := validate_ok_year _ hval y rfl
    have hmo := validate_ok_month _ hval mo rfl
    have hy4 := pad4_len y (by omega) (by omega)
    have hy4d := pad_all_digits y (by omega) 4
    have hmo2 := pad2_len mo (by omega) (by omega)
    have hmo2d := pad_all_digits mo (by omega) 2
    have hrender : FuzzyDatetime.to_string
        ⟨[some y, some mo, none, none, none, none], 1, none⟩
        true "/" ":" ["abbr", "name", "+hhmm"] =
        .ok (String.mk (pad y 4 ++ '/' :: pad mo 2)) := by
      simp only [FuzzyDatetime.to_string, FuzzyDatetime.year, FuzzyDatetime.month,
        FuzzyDatetime.day, FuzzyDatetime.hour, FuzzyDatetime.minute,
        FuzzyDatetime.second, List.getD, List.take, List.foldl]
      simp [pure, Except.pure, List.append_assoc]
    have hmatch : matchDatetime (pad y 4 ++ '/' :: pad mo 2) =
        some ⟨pad y 4, some '/', some (pad mo 2), none, none, none, none, none,
          none, none, none⟩ := by
      rw [matchDatetime_step _ _ hy4 hy4d,
        matchMonthPart_last _ _ _ (by decide) hmo2 hmo2d]
      exact matchDayPart_done _
    have hpc : precisionCheck r
        (inPrecisionOf ⟨pad y 4, some '/', some (pad mo 2), none, none, none,
          none, none, none, none, none⟩)
        (String.mk (pad y 4 ++ '/' :: pad mo 2)) = none := by
      apply precisionCheck_eq_none_of
      exact hreq
    have hpipe := parse_of_match _ r _ hmatch hpc
    have hgc : groupComponents ⟨pad y 4, some '/', some (pad mo 2), none, none,
        none, none, none, none, none, none⟩ =
        [some y, some mo, none, none, none, none] := by
      simp only [groupComponents, Option.map_some', Option.map_none']
      rw [cast_readNat_pad y (by omega) 4, cast_readNat_pad mo (by omega) 2]
    have hinit := init_self ⟨[some y, some mo, none, none, none, none], 1, none⟩
      ⟨by simp, by omega, hpres, hval⟩ none 1 rfl
    refine ⟨_, ⟨[some y, some mo, none, none, none, none], 1, none⟩, hrender, ?_,
      rfl, rfl, by simp, by simp⟩
    rw [hpipe]
    dsimp only
    rw [hgc]
    exact hinit
  -- precision Day
  · have h0' : x0.isSome = true ↔ 0 ≤ 2 := hpres 0 (by omega)
    obtain ⟨y, rfl⟩ := Option.isSome_iff_exists.mp (h0'.mpr (by omega))
    have h1' : x1.isSome = true ↔ 1 ≤ 2 := hpres 1 (by omega)
    obtain ⟨mo, rfl⟩ := Option.isSome_iff_exists.mp (h1'.mpr (by omega))
    have h2' : x2.isSome = true ↔ 2 ≤ 2 := hpres 2 (by omega)
    obtain ⟨d, rfl⟩ := Option.isSome_iff_exists.mp (h2'.mpr (by omega))
    have h3' : x3.isSome = true ↔ 3 ≤ 2 := hpres 3 (by omega)
    have hx3 : x3 = none := by
      cases hx : x3
      · rfl
      · rw [hx] at h3'; simp at h3'
    subst hx3
    have h4' : x4.isSome = true ↔ 4 ≤ 2 := hpres 4 (by omega)
    have hx4 : x4 = none := by
      cases hx : x4
      · rfl
      · rw [hx] at h4'; simp at h4'
    subst hx4
    have h5' : x5.isSome = true ↔ 5 ≤ 2 := hpres 5 (by omega)
    have hx5 : x5 = none := by
      cases hx : x5
      · rfl
      · rw [hx] at h5'; simp at h5'
    subst hx5
    have htznone : tzv = none := by
      cases htzv : tzv
      · rfl
      · have h3 := (htzf _ htzv).1
        dsimp only at h3
        omega
    subst htznone
    have hy := validate_ok_year _ hval y rfl
    have hmo := validate_ok_month _ hval mo rfl
    have hdv := validate_ok_day _ hval y mo d rfl rfl rfl
    have hd31 := daysInMonth_le31 y mo
    have hy4 := pad4_len y (by omega) (by omega)
    have hy4d := pad_all_digits y (by omega) 4
    have hmo2 := pad2_len mo (by omega) (by omega)
    have hmo2d := pad_all_digits mo (by omega) 2
    have hd2 := pad2_len d (by omega) (by omega)
    have hd2d := pad_all_digits d (by omega) 2
    have hrender : FuzzyDatetime.to_string
        ⟨[some y, some mo, some d, none, none, none], 2, none⟩
        true "/" ":" ["abbr", "name", "+hhmm"] =
        .ok (String.mk (pad y 4 ++ '/' :: (pad mo 2 ++ '/' :: pad d 2))) := by
      simp only [FuzzyDatetime.to_string, FuzzyDatetime.year, FuzzyDatetime.month,
        FuzzyDatetime.day, FuzzyDatetime.hour, FuzzyDatetime.minute,
        FuzzyDatetime.second, List.getD, List.take, List.foldl]
      simp [pure, Except.pure, List.append_assoc]
    have hmatch : matchDatetime (pad y 4 ++ '/' :: (pad mo 2 ++ '/' :: pad d 2)) =
        some ⟨pad y 4, some '/', some (pad mo 2), some '/', some (pad d 2), none,
          none, none, none, none, none⟩ := by
      rw [matchDatetime_step _ _ hy4 hy4d,
        matchMonthPart_step _ _ _ _ (by decide) hmo2 hmo2d,
        matchDayPart_last _ _ _ (by decide) hd2 hd2d]
      exact matchHourPart_done _
    have hpc : precisionCheck r
        (inPrecisionOf ⟨pad y 4, some '/', some (pad mo 2), some '/',
          some (pad d 2), none, none, none, none, none, none⟩)
        (String.mk (pad y 4 ++ '/' :: (pad mo 2 ++ '/' :: pad d 2))) = none := by
      apply precisionCheck_eq_none_of
      exact hreq
    have hpipe := parse_of_match _ r _ hmatch hpc
    have hgc : groupComponents ⟨pad y 4, some '/', some (pad mo 2), some '/',
        some (pad d 2), none, none, none, none, none, none⟩ =
        [some y, some mo, some d, none, none, none] := by
      simp only [groupComponents, Option.map_some', Option.map_none']
      rw [cast_readNat_pad y (by omega) 4, cast_readNat_pad mo (by omega) 2,
        cast_readNat_pad d (by omega) 2]
    have hinit := init_self ⟨[some y, some mo, some d, none, none, none], 2, none⟩
      ⟨by simp, by omega, hpres, hval⟩ none 2 rfl
    refine ⟨_, ⟨[some y, some mo, some d, none, none, none], 2, none⟩, hrender, ?_,
      rfl, rfl, by simp, by simp⟩
    rw [hpipe]
    dsimp only
    rw [hgc]
    exact hinit
  -- precision Hour
  · have h0' : x0.isSome = true ↔ 0 ≤ 3 := hpres 0 (by omega)
    obtain ⟨y, rfl⟩ := Option.isSome_iff_exists.mp (h0'.mpr (by omega))
    have h1' : x1.isSome = true ↔ 1 ≤ 3 := hpres 1 (by omega)
    obtain ⟨mo, rfl⟩ := Option.isSome_iff_exists.mp (h1'.mpr (by omega))
    have h2' : x2.isSome = true ↔ 2 ≤ 3 := hpres 2 (by omega)
    obtain ⟨d, rfl⟩ := Option.isSome_iff_exists.mp (h2'.mpr (by omega))
    have h3' : x3.isSome = true ↔ 3 ≤ 3 := hpres 3 (by omega)
    obtain ⟨hr, rfl⟩ := Option.isSome_iff_exists.mp (h3'.mpr (by omega))
    have h4' : x4.isSome = true ↔ 4 ≤ 3 := hpres 4 (by omega)
    have hx4 : x4 = none := by
      cases hx : x4
      · rfl
      · rw [hx] at h4'; simp at h4'
    subst hx4
    have h5' : x5.isSome = true ↔ 5 ≤ 3 := hpres 5 (by omega)
    have hx5 : x5 = none := by
      cases hx : x5
      · rfl
      · rw [hx] at h5'; simp at h5'
    subst hx5
    have hy := validate_ok_year _ hval y rfl
    have hmo := validate_ok_month _ hval mo rfl
    have hdv := validate_ok_day _ hval y mo d rfl rfl rfl
    have hhrv := validate_ok_hour _ hval y mo d hr rfl rfl rfl rfl
    have hd31 := daysInMonth_le31 y mo
    have hy4 := pad4_len y (by omega) (by omega)
    have hy4d := pad_all_digits y (by omega) 4
    have hmo2 := pad2_len mo (by omega) (by omega)
    have hmo2d := pad_all_digits mo (by omega) 2
    have hd2 := pad2_len d (by omega) (by omega)
    have hd2d := pad_all_digits d (by omega) 2
    have hhr2 := pad2_len hr (by omega) (by omega)
    have hhr2d := pad_all_digits hr (by omega) 2
    cases tzv with
    | none =>
      have hrender : FuzzyDatetime.to_string
          ⟨[some y, some mo, some d, some hr, none, none], 3, none⟩
          true "/" ":" ["abbr", "name", "+hhmm"] =
          .ok (String.mk (pad y 4 ++ '/' :: (pad mo 2 ++ '/' ::
            (pad d 2 ++ ' ' :: (pad hr 2 ++ tzSuffix none))))) := by
        simp only [FuzzyDatetime.to_string, FuzzyDatetime.year,
          FuzzyDatetime.month, FuzzyDatetime.day, FuzzyDatetime.hour,
          FuzzyDatetime.minute, FuzzyDatetime.second, List.getD, List.take,
          List.foldl]
        simp [pure, Except.pure, List.append_assoc, tzSuffix]
      have hmatch : matchDatetime (pad y 4 ++ '/' :: (pad mo 2 ++ '/' ::
          (pad d 2 ++ ' ' :: (pad hr 2 ++ tzSuffix none)))) =
          some ⟨pad y 4, some '/', some (pad mo 2), some '/', some (pad d 2),
            some (pad hr 2), none, none, none, none, none⟩ := by
        rw [matchDatetime_step _ _ hy4 hy4d,
          matchMonthPart_step _ _ _ _ (by decide) hmo2 hmo2d,
          matchDayPart_step _ _ _ _ (by decide) hd2 hd2d,
          matchHourPart_step _ _ _ hhr2 hhr2d,
          matchMinutePart_end _ none (by intro tok htk; cases htk)]
      have hpc : precisionCheck r
          (inPrecisionOf ⟨pad y 4, some '/', some (pad mo 2), some '/',
            some (pad d 2), some (pad hr 2), none, none, none, none, none⟩)
          (String.mk (pad y 4 ++ '/' :: (pad mo 2 ++ '/' ::
            (pad d 2 ++ ' ' :: (pad hr 2 ++ tzSuffix none))))) = none := by
        apply precisionCheck_eq_none_of
        exact hreq
      have hpipe := parse_of_match _ r _ hmatch hpc
      have hgc : groupComponents ⟨pad y 4, some '/', some (pad mo 2), some '/',
          some (pad d 2), some (pad hr 2), none, none, none, none, none⟩ =
          [some y, some mo, some d, some hr, none, none] := by
        simp only [groupComponents, Option.map_some', Option.map_none']
        rw [cast_readNat_pad y (by omega) 4, cast_readNat_pad mo (by omega) 2,
          cast_readNat_pad d (by omega) 2, cast_readNat_pad hr (by omega) 2]
      have hinit := init_self
        ⟨[some y, some mo, some d, some hr, none, none], 3, none⟩
        ⟨by simp, by omega, hpres, hval⟩ none 3 rfl
      refine ⟨_, ⟨[some y, some mo, some d, some hr, none, none], 3, none⟩,
        hrender, ?_, rfl, rfl, by simp, by simp⟩
      rw [hpipe]
      dsimp only
      rw [hgc]
      exact hinit
    | some t =>
      obtain ⟨tok, t', htf, hne, htzc, hpt, hoff⟩ :=
        tz_render_reparse t ((htzf t rfl).2.1) (hsmall t rfl)
      have hrender : FuzzyDatetime.to_string
          ⟨[some y, some mo, some d, some hr, none, none], 3, some t⟩
          true "/" ":" ["abbr", "name", "+hhmm"] =
          .ok (String.mk (pad y 4 ++ '/' :: (pad mo 2 ++ '/' ::
            (pad d 2 ++ ' ' :: (pad hr 2 ++ tzSuffix (some tok)))))) := by
        simp only [FuzzyDatetime.to_string, FuzzyDatetime.year,
          FuzzyDatetime.month, FuzzyDatetime.day, FuzzyDatetime.hour,
          FuzzyDatetime.minute, FuzzyDatetime.second, List.getD, List.take,
          List.foldl]
        rw [htf]
        simp [mk_ne_empty tok hne, pure, Except.pure, Except.bind, bind,
          List.append_assoc, tzSuffix]
      have hmatch : matchDatetime (pad y 4 ++ '/' :: (pad mo 2 ++ '/' ::
          (pad d 2 ++ ' ' :: (pad hr 2 ++ tzSuffix (some tok))))) =
          some ⟨pad y 4, some '/', some (pad mo 2), some '/', some (pad d 2),
            some (pad hr 2), none, none, none, none, some tok⟩ := by
        rw [matchDatetime_step _ _ hy4 hy4d,
          matchMonthPart_step _ _ _ _ (by decide) hmo2 hmo2d,
          matchDayPart_step _ _ _ _ (by decide) hd2 hd2d,
          matchHourPart_step _ _ _ hhr2 hhr2d,
          matchMinutePart_end _ (some tok) (by
            intro tk htk
            injection htk with htk'
            subst htk'
            exact ⟨hne, htzc⟩)]
      have hpc : precisionCheck r
          (inPrecisionOf ⟨pad y 4, some '/', some (pad mo 2), some '/',
            some (pad d 2), some (pad hr 2), none, none, none, none, some tok⟩)
          (String.mk (pad y 4 ++ '/' :: (pad mo 2 ++ '/' ::
            (pad d 2 ++ ' ' :: (pad hr 2 ++ tzSuffix (some tok)))))) = none := by
        apply precisionCheck_eq_none_of
        exact hreq
      have hpipe := parse_of_match _ r _ hmatch hpc
      have hgc : groupComponents ⟨pad y 4, some '/', some (pad mo 2), some '/',
          some (pad d 2), some (pad hr 2), none, none, none, none, some tok⟩ =
          [some y, some mo, some d, some hr, none, none] := by
        simp only [groupComponents, Option.map_some', Option.map_none']
        rw [cast_readNat_pad y (by omega) 4, cast_readNat_pad mo (by omega) 2,
          cast_readNat_pad d (by omega) 2, cast_readNat_pad hr (by omega) 2]
      have hinit := init_self
        ⟨[some y, some mo, some d, some hr, none, none], 3, some t⟩
        ⟨by simp, by omega, hpres, hval⟩ (some t') 3 rfl
      refine ⟨_, ⟨[some y, some mo, some d, some hr, none, none], 3, some t'⟩,
        hrender, ?_, rfl, rfl, by simp, ?_⟩
      · rw [hpipe]
        dsimp only
        rw [hpt]
        dsimp only
        rw [hgc]
        exact hinit
      · intro ta tb hta htb
        injection hta with hta'
        injection htb with htb'
        subst hta'
        subst htb'
        exact hoff
  -- precision Minute
  · have h0' : x0.isSome = true ↔ 0 ≤ 4 := hpres 0 (by omega)
    obtain ⟨y, rfl⟩ := Option.isSome_iff_exists.mp (h0'.mpr (by omega))
    have h1' : x1.isSome = true ↔ 1 ≤ 4 := hpres 1 (by omega)
    obtain ⟨mo, rfl⟩ := Option.isSome_iff_exists.mp (h1'.mpr (by omega))
    have h2' : x2.isSome = true ↔ 2 ≤ 4 := hpres 2 (by omega)
    obtain ⟨d, rfl⟩ := Option.isSome_iff_exists.mp (h2'.mpr (by omega))
    have h3' : x3.isSome = true ↔ 3 ≤ 4 := hpres 3 (by omega)
    obtain ⟨hr, rfl⟩ := Option.isSome_iff_exists.mp (h3'.mpr (by omega))
    have h4' : x4.isSome = true ↔ 4 ≤ 4 := hpres 4 (by omega)
    obtain ⟨mi, rfl⟩ := Option.isSome_iff_exists.mp (h4'.mpr (by omega))
    have h5' : x5.isSome = true ↔ 5 ≤ 4 := hpres 5 (by omega)
    have hx5 : x5 = none := by
      cases hx : x5
      · rfl
      · rw [hx] at h5'; simp at h5'
    subst hx5
    have hy := validate_ok_year _ hval y rfl
    have hmo := validate_ok_month _ hval mo rfl
    have hdv := validate_ok_day _ hval y mo d rfl rfl rfl
    have hhrv := validate_ok_hour _ hval y mo d hr rfl rfl rfl rfl
    have hmiv := validate_ok_minute _ hval y mo d hr mi rfl rfl rfl rfl rfl
    have hd31 := daysInMonth_le31 y mo
    have hy4 := pad4_len y (by omega) (by omega)
    have hy4d := pad_all_digits y (by omega) 4
    have hmo2 := pad2_len mo (by omega) (by omega)
    have hmo2d := pad_all_digits mo (by omega) 2
    have hd2 := pad2_len d (by omega) (by omega)
    have hd2d := pad_all_digits d (by omega) 2
    have hhr2 := pad2_len hr (by omega) (by omega)
    have hhr2d := pad_all_digits hr (by omega) 2
    have hmi2 := pad2_len mi (by omega) (by omega)
    have hmi2d := pad_all_digits mi (by omega) 2
    cases tzv with
    | none =>
      have hrender : FuzzyDatetime.to_string
          ⟨[some y, some mo, some d, some hr, some mi, none], 4, none⟩
          true "/" ":" ["abbr", "name", "+hhmm"] =
          .ok (String.mk (pad y 4 ++ '/' :: (pad mo 2 ++ '/' ::
            (pad d 2 ++ ' ' :: (pad hr 2 ++ ':' ::
              (pad mi 2 ++ tzSuffix none)))))) := by
        simp only [FuzzyDatetime.to_string, FuzzyDatetime.year,
          FuzzyDatetime.month, FuzzyDatetime.day, FuzzyDatetime.hour,
          FuzzyDatetime.minute, FuzzyDatetime.second, List.getD, List.take,
          List.foldl]
        simp [pure, Except.pure, List.append_assoc, tzSuffix]
      have hmatch : matchDatetime (pad y 4 ++ '/' :: (pad mo 2 ++ '/' ::
          (pad d 2 ++ ' ' :: (pad hr 2 ++ ':' ::
            (pad mi 2 ++ tzSuffix none))))) =
          some ⟨pad y 4, some '/', some (pad mo 2), some '/', some (pad d 2),
            some (pad hr 2), some ':', some (pad mi 2), none, none, none⟩ := by
        rw [matchDatetime_step _ _ hy4 hy4d,
          matchMonthPart_step _ _ _ _ (by decide) hmo2 hmo2d,
          matchDayPart_step _ _ _ _ (by decide) hd2 hd2d,
          matchHourPart_step _ _ _ hhr2 hhr2d,
          matchMinutePart_step _ _ _ _ (by decide) hmi2 hmi2d,
          matchSecondPart_end _ none (by intro tok htk; cases htk)]
      have hpc : precisionCheck r
          (inPrecisionOf ⟨pad y 4, some '/', some (pad mo 2), some '/',
            some (pad d 2), some (pad hr 2), some ':', some (pad mi 2), none,
            none, none⟩)
          (String.mk (pad y 4 ++ '/' :: (pad mo 2 ++ '/' ::
            (pad d 2 ++ ' ' :: (pad hr 2 ++ ':' ::
              (pad mi 2 ++ tzSuffix none)))))) = none := by
        apply precisionCheck_eq_none_of
        exact hreq
      have hpipe := parse_of_match _ r _ hmatch hpc
      have hgc : groupComponents ⟨pad y 4, some '/', some (pad mo 2), some '/',
          some (pad d 2), some (pad hr 2), some ':', some (pad mi 2), none,
          none, none⟩ = [some y, some mo, some d, some hr, some mi, none] := by
        simp only [groupComponents, Option.map_some', Option.map_none']
        rw [cast_readNat_pad y (by omega) 4, cast_readNat_pad mo (by omega) 2,
          cast_readNat_pad d (by omega) 2, cast_readNat_pad hr (by omega) 2,
          cast_readNat_pad mi (by omega) 2]
      have hinit := init_self
        ⟨[some y, some mo, some d, some hr, some mi, none], 4, none⟩
        ⟨by simp, by omega, hpres, hval⟩ none 4 rfl
      refine ⟨_, ⟨[some y, some mo, some d, some hr, some mi, none], 4, none⟩,
        hrender, ?_, rfl, rfl, by simp, by simp⟩
      rw [hpipe]
      dsimp only
      rw [hgc]
      exact hinit
    | some t =>
      obtain ⟨tok, t', htf, hne, htzc, hpt, hoff⟩ :=
        tz_render_reparse t ((htzf t rfl).2.1) (hsmall t rfl)
      have hrender : FuzzyDatetime.to_string
          ⟨[some y, some mo, some d, some hr, some mi, none], 4, some t⟩
          true "/" ":" ["abbr", "name", "+hhmm"] =
          .ok (String.mk (pad y 4 ++ '/' :: (pad mo 2 ++ '/' ::
            (pad d 2 ++ ' ' :: (pad hr 2 ++ ':' ::
              (pad mi 2 ++ tzSuffix (some tok))))))) := by
        simp only [FuzzyDatetime.to_string, FuzzyDatetime.year,
          FuzzyDatetime.month, FuzzyDatetime.day, FuzzyDatetime.hour,
          FuzzyDatetime.minute, FuzzyDatetime.second, List.getD, List.take,
          List.foldl]
        rw [htf]
        simp [mk_ne_empty tok hne, pure, Except.pure, Except.bind, bind,
          List.append_assoc, tzSuffix]
      have hmatch : matchDatetime (pad y 4 ++ '/' :: (pad mo 2 ++ '/' ::
          (pad d 2 ++ ' ' :: (pad hr 2 ++ ':' ::
            (pad mi 2 ++ tzSuffix (some tok)))))) =
          some ⟨pad y 4, some '/', some (pad mo 2), some '/', some (pad d 2),
            some (pad hr 2), some ':', some (pad mi 2), none, none, some tok⟩ := by
        rw [matchDatetime_step _ _ hy4 hy4d,
          matchMonthPart_step _ _ _ _ (by decide) hmo2 hmo2d,
          matchDayPart_step _ _ _ _ (by decide) hd2 hd2d,
          matchHourPart_step _ _ _ hhr2 hhr2d,
          matchMinutePart_step _ _ _ _ (by decide) hmi2 hmi2d,
          matchSecondPart_end _ (some tok) (by
            intro tk htk
            injection htk with htk'
            subst htk'
            exact ⟨hne, htzc⟩)]
      have hpc : precisionCheck r
          (inPrecisionOf ⟨pad y 4, some '/', some (pad mo 2), some '/',
            some (pad d 2), some (pad hr 2), some ':', some (pad mi 2), none,
            none, some tok⟩)
          (String.mk (pad y 4 ++ '/' :: (pad mo 2 ++ '/' ::
            (pad d 2 ++ ' ' :: (pad hr 2 ++ ':' ::
              (pad mi 2 ++ tzSuffix (some tok))))))) = none := by
        apply precisionCheck_eq_none_of
        exact hreq
      have hpipe := parse_of_match _ r _ hmatch hpc
      have hgc : groupComponents ⟨pad y 4, some '/', some (pad mo 2), some '/',
          some (pad d 2), some (pad hr 2), some ':', some (pad mi 2), none,
          none, some tok⟩ = [some y, some mo, some d, some hr, some mi, none] := by
        simp only [groupComponents, Option.map_some', Option.map_none']
        rw [cast_readNat_pad y (by omega) 4, cast_readNat_pad mo (by omega) 2,
          cast_readNat_pad d (by omega) 2, cast_readNat_pad hr (by omega) 2,
          cast_readNat_pad mi (by omega) 2]
      have hinit := init_self
        ⟨[some y, some mo, some d, some hr, some mi, none], 4, some t⟩
        ⟨by simp, by omega, hpres, hval⟩ (some t') 4 rfl
      refine ⟨_, ⟨[some y, some mo, some d, some hr, some mi, none], 4, some t'⟩,
        hrender, ?_, rfl, rfl, by simp, ?_⟩
      · rw [hpipe]
        dsimp only
        rw [hpt]
        dsimp only
        rw [hgc]
        exact hinit
      · intro ta tb hta htb
        injection hta with hta'
        injection htb with htb'
        subst hta'
        subst htb'
        exact hoff
  -- precision Second
  · have h0' : x0.isSome = true ↔ 0 ≤ 5 := hpres 0 (by omega)
    obtain ⟨y, rfl⟩ := Option.isSome_iff_exists.mp (h0'.mpr (by omega))
    have h1' : x1.isSome = true ↔ 1 ≤ 5 := hpres 1 (by omega)
    obtain ⟨mo, rfl⟩ := Option.isSome_iff_exists.mp (h1'.mpr (by omega))
    have h2' : x2.isSome = true ↔ 2 ≤ 5 := hpres 2 (by omega)
    obtain ⟨d, rfl⟩ := Option.isSome_iff_exists.mp (h2'.mpr (by omega))
    have h3' : x3.isSome = true ↔ 3 ≤ 5 := hpres 3 (by omega)
    obtain ⟨hr, rfl⟩ := Option.isSome_iff_exists.mp (h3'.mpr (by omega))
    have h4' : x4.isSome = true ↔ 4 ≤ 5 := hpres 4 (by omega)
    obtain ⟨mi, rfl⟩ := Option.isSome_iff_exists.mp (h4'.mpr (by omega))
    have h5' : x5.isSome = true ↔ 5 ≤ 5 := hpres 5 (by omega)
    obtain ⟨s, rfl⟩ := Option.isSome_iff_exists.mp (h5'.mpr (by omega))
    have hy := validate_ok_year _ hval y rfl
    have hmo := validate_ok_month _ hval mo rfl
    have hdv := validate_ok_day _ hval y mo d rfl rfl rfl
    have hhrv := validate_ok_hour _ hval y mo d hr rfl rfl rfl rfl
    have hmiv := validate_ok_minute _ hval y mo d hr mi rfl rfl rfl rfl rfl
    have hsv := validate_ok_second _ hval y mo d hr mi s rfl rfl rfl rfl rfl rfl
    have hd31 := daysInMonth_le31 y mo
    have hy4 := pad4_len y (by omega) (by omega)
    have hy4d := pad_all_digits y (by omega) 4
    have hmo2 := pad2_len mo (by omega) (by omega)
    have hmo2d := pad_all_digits mo (by omega) 2
    have hd2 := pad2_len d (by omega) (by omega)
    have hd2d := pad_all_digits d (by omega) 2
    have hhr2 := pad2_len hr (by omega) (by omega)
    have hhr2d := pad_all_digits hr (by omega) 2
    have hmi2 := pad2_len mi (by omega) (by omega)
    have hmi2d := pad_all_digits mi (by omega) 2
    have hs2 := pad2_len s (by omega) (by omega)
    have hs2d := pad_all_digits s (by omega) 2
    cases tzv with
    | none =>
      have hrender : FuzzyDatetime.to_string
          ⟨[some y, some mo, some d, some hr, some mi, some s], 5, none⟩
          true "/" ":" ["abbr", "name", "+hhmm"] =
          .ok (String.mk (pad y 4 ++ '/' :: (pad mo 2 ++ '/' ::
            (pad d 2 ++ ' ' :: (pad hr 2 ++ ':' ::
              (pad mi 2 ++ ':' :: (pad s 2 ++ tzSuffix none))))))) := by
        simp only [FuzzyDatetime.to_string, FuzzyDatetime.year,
          FuzzyDatetime.month, FuzzyDatetime.day, FuzzyDatetime.hour,
          FuzzyDatetime.minute, FuzzyDatetime.second, List.getD, List.take,
          List.foldl]
        simp [pure, Except.pure, List.append_assoc, tzSuffix]
      have hmatch : matchDatetime (pad y 4 ++ '/' :: (pad mo 2 ++ '/' ::
          (pad d 2 ++ ' ' :: (pad hr 2 ++ ':' ::
            (pad mi 2 ++ ':' :: (pad s 2 ++ tzSuffix none)))))) =
          some ⟨pad y 4, some '/', some (pad mo 2), some '/', some (pad d 2),
            some (pad hr 2), some ':', some (pad mi 2), some ':', some (pad s 2),
            none⟩ := by
        rw [matchDatetime_step _ _ hy4 hy4d,
          matchMonthPart_step _ _ _ _ (by decide) hmo2 hmo2d,
          matchDayPart_step _ _ _ _ (by decide) hd2 hd2d,
          matchHourPart_step _ _ _ hhr2 hhr2d,
          matchMinutePart_step _ _ _ _ (by decide) hmi2 hmi2d,
          matchSecondPart_step _ _ _ none (by decide) hs2 hs2d
            (by intro tok htk; cases htk)]
      have hpc : precisionCheck r
          (inPrecisionOf ⟨pad y 4, some '/', some (pad mo 2), some '/',
            some (pad d 2), some (pad hr 2), some ':', some (pad mi 2),
            some ':', some (pad s 2), none⟩)
          (String.mk (pad y 4 ++ '/' :: (pad mo 2 ++ '/' ::
            (pad d 2 ++ ' ' :: (pad hr 2 ++ ':' ::
              (pad mi 2 ++ ':' :: (pad s 2 ++ tzSuffix none))))))) = none := by
        apply precisionCheck_eq_none_of
        exact hreq
      have hpipe := parse_of_match _ r _ hmatch hpc
      have hgc : groupComponents ⟨pad y 4, some '/', some (pad mo 2), some '/',
          some (pad d 2), some (pad hr 2), some ':', some (pad mi 2), some ':',
          some (pad s 2), none⟩ =
          [some y, some mo, some d, some hr, some mi, some s] := by
        simp only [groupComponents, Option.map_some', Option.map_none']
        rw [cast_readNat_pad y (by omega) 4, cast_readNat_pad mo (by omega) 2,
          cast_readNat_pad d (by omega) 2, cast_readNat_pad hr (by omega) 2,
          cast_readNat_pad mi (by omega) 2, cast_readNat_pad s (by omega) 2]
      have hinit := init_self
        ⟨[some y, some mo, some d, some hr, some mi, some s], 5, none⟩
        ⟨by simp, by omega, hpres, hval⟩ none 5 rfl
      refine ⟨_, ⟨[some y, some mo, some d, some hr, some mi, some s], 5, none⟩,
        hrender, ?_, rfl, rfl, by simp, by simp⟩
      rw [hpipe]
      dsimp only
      rw [hgc]
      exact hinit
    | some t =>
      obtain ⟨tok, t', htf, hne, htzc, hpt, hoff⟩ :=
        tz_render_reparse t ((htzf t rfl).2.1) (hsmall t rfl)
      have hrender : FuzzyDatetime.to_string
          ⟨[some y, some mo, some d, some hr, some mi, some s], 5, some t⟩
          true "/" ":" ["abbr", "name", "+hhmm"] =
          .ok (String.mk (pad y 4 ++ '/' :: (pad mo 2 ++ '/' ::
            (pad d 2 ++ ' ' :: (pad hr 2 ++ ':' ::
              (pad mi 2 ++ ':' :: (pad s 2 ++ tzSuffix (some tok)))))))) := by
        simp only [FuzzyDatetime.to_string, FuzzyDatetime.year,
          FuzzyDatetime.month, FuzzyDatetime.day, FuzzyDatetime.hour,
          FuzzyDatetime.minute, FuzzyDatetime.second, List.getD, List.take,
          List.foldl]
        rw [htf]
        simp [mk_ne_empty tok hne, pure, Except.pure, Except.bind, bind,
          List.append_assoc, tzSuffix]
      have hmatch : matchDatetime (pad y 4 ++ '/' :: (pad mo 2 ++ '/' ::
          (pad d 2 ++ ' ' :: (pad hr 2 ++ ':' ::
            (pad mi 2 ++ ':' :: (pad s 2 ++ tzSuffix (some tok))))))) =
          some ⟨pad y 4, some '/', some (pad mo 2), some '/', some (pad d 2),
            some (pad hr 2), some ':', some (pad mi 2), some ':', some (pad s 2),
            some tok⟩ := by
        rw [matchDatetime_step _ _ hy4 hy4d,
          matchMonthPart_step _ _ _ _ (by decide) hmo2 hmo2d,
          matchDayPart_step _ _ _ _ (by decide) hd2 hd2d,
          matchHourPart_step _ _ _ hhr2 hhr2d,
          matchMinutePart_step _ _ _ _ (by decide) hmi2 hmi2d,
          matchSecondPart_step _ _ _ (some tok) (by decide) hs2 hs2d (by
            intro tk htk
            injection htk with htk'
            subst htk'
            exact ⟨hne, htzc⟩)]
      have hpc : precisionCheck r
          (inPrecisionOf ⟨pad y 4, some '/', some (pad mo 2), some '/',
            some (pad d 2), some (pad hr 2), some ':', some (pad mi 2),
            some ':', some (pad s 2), some tok⟩)
          (String.mk (pad y 4 ++ '/' :: (pad mo 2 ++ '/' ::
            (pad d 2 ++ ' ' :: (pad hr 2 ++ ':' ::
              (pad mi 2 ++ ':' :: (pad s 2 ++ tzSuffix (some tok)))))))) = none := by
        apply precisionCheck_eq_none_of
        exact hreq
      have hpipe := parse_of_match _ r _ hmatch hpc
      have hgc : groupComponents ⟨pad y 4, some '/', some (pad mo 2), some '/',
          some (pad d 2), some (pad hr 2), some ':', some (pad mi 2), some ':',
          some (pad s 2), some tok⟩ =
          [some y, some mo, some d, some hr, some mi, some s] := by
        simp only [groupComponents, Option.map_some', Option.map_none']
        rw [cast_readNat_pad y (by omega) 4, cast_readNat_pad mo (by omega) 2,
          cast_readNat_pad d (by omega) 2, cast_readNat_pad hr (by omega) 2,
          cast_readNat_pad mi (by omega) 2, cast_readNat_pad s (by omega) 2]
      have hinit := init_self
        ⟨[some y, some mo, some d, some hr, some mi, some s], 5, some t⟩
        ⟨by simp, by omega, hpres, hval⟩ (some t') 5 rfl
      refine ⟨_, ⟨[some y, some mo, some d, some hr, some mi, some s], 5, some t'⟩,
        hrender, ?_, rfl, rfl, by simp, ?_⟩
      · rw [hpipe]
        dsimp only
        rw [hpt]
        dsimp only
        rw [hgc]
        exact hinit
      · intro ta tb hta htb
        injection hta with hta'
        injection htb with htb'
        subst hta'
        subst htb'
        exact hoff

/-- **C1 witness**: the round-trip theorem applied at the concrete parse of
`"2023/4/1 9:5 JST"` with required precision `"minute"`. -/
theorem c1_roundtrip_witness :
    FuzzyDatetime.parse "2023/4/1 9:5 JST" "minute" false false none =
      .ok ⟨[some 2023, some 4, some 1, some 9, some 5, none], 4,
        some ⟨540, some "JST", some "Asia/Tokyo"⟩⟩ ∧
    ∃ out v',
      FuzzyDatetime.to_string
        ⟨[some 2023, some 4, some 1, some 9, some 5, none], 4,
          some ⟨540, some "JST", some "Asia/Tokyo"⟩⟩
        true "/" ":" ["abbr", "name", "+hhmm"] = .ok out ∧
      FuzzyDatetime.parse out "minute" false false none = .ok v' ∧
      v'._components = [some 2023, some 4, some 1, some 9, some 5, none] ∧
      v'._precision = 4 ∧
      ((some (⟨540, some "JST", some "Asia/Tokyo"⟩ : FlexiTimezone) :
        Option FlexiTimezone) = none ↔ v'._tzinfo = none) ∧
      (∀ t t', (some (⟨540, some "JST", some "Asia/Tokyo"⟩ : FlexiTimezone) :
          Option FlexiTimezone) = some t → v'._tzinfo = some t' →
        t'.offset = t.offset) := by
  refine ⟨by decide, ?_⟩
  exact c1_roundtrip "2023/4/1 9:5 JST" "minute" false false none
    ⟨[some 2023, some 4, some 1, some 9, some 5, none], 4,
      some ⟨540, some "JST", some "Asia/Tokyo"⟩⟩
    (by decide)
    (by
      intro t ht ha
      injection ht with ht'
      subst ht'
      exact absurd ha (by decide))

/-- **C1 counterexample**: the unamended round-trip fails. Parsing
`"2023/4/1 9:5 +99:99"` succeeds with a numeric offset of 6039 minutes, the
zero-padded rendering is `"2023/04/01 09:05 +10039"` (the offset prints as
five digits), and re-parsing that rendering is a timezone-format error, not a
success. -/
theorem c1_counterexample :
    FuzzyDatetime.parse "2023/4/1 9:5 +99:99" "" false false none =
      .ok ⟨[some 2023, some 4, some 1, some 9, some 5, none], 4,
        some ⟨6039, none, none⟩⟩ ∧
    FuzzyDatetime.to_string
      ⟨[some 2023, some 4, some 1, some 9, some 5, none], 4,
        some ⟨6039, none, none⟩⟩
      true "/" ":" ["abbr", "name", "+hhmm"] = .ok "2023/04/01 09:05 +10039" ∧
    FuzzyDatetime.parse "2023/04/01 09:05 +10039" "" false false none =
      .error (.timezoneFormatError "2023/04/01 09:05 +10039") := by
  refine ⟨by decide, by decide, by decide⟩

/-- **C2**: the end-to-end example. Parsing the exact input
`"2023/4/1 9:5 JST"` at required precision `minute` succeeds with
year 2023, month 4, day 1, hour 9, minute 5, second absent, precision
`MINUTE`, and the JST timezone resolving to +540 minutes; rendering that value
with `zero_pad` and the default separators and timezone-form ranking returns
exactly `"2023/04/01 09:05 JST"`. -/
theorem c2_end_to_end :
    FuzzyDatetime.parse "2023/4/1 9:5 JST" "minute" false false none =
      .ok ⟨[some 2023, some 4, some 1, some 9, some 5, none],
        DatePrecision.MINUTE, some ⟨540, some "JST", some "Asia/Tokyo"⟩⟩ ∧
    FuzzyDatetime.to_string
      ⟨[some 2023, some 4, some 1, some 9, some 5, none],
        DatePrecision.MINUTE, some ⟨540, some "JST", some "Asia/Tokyo"⟩⟩
      true "/" ":" ["abbr", "name", "+hhmm"] = .ok "2023/04/01 09:05 JST" := by
  refine ⟨by decide, by decide⟩

/-- **C3**: the narrowing semantics the spec gives for `with_precision` do not
hold in the code. Narrowing a full `2023-04-01 09:05:30` to minute precision
with `ceil` (which the spec says increments the minute) — and even with
`trunc` — raises `AttributeError`: the narrowing branch never assigns
`default`, yet `default.tzinfo` is evaluated for every target at or above
hour precision.  Moreover `ceil` consults only the first dropped component:
narrowing `2023-04-01 00:00:30` to day precision with `ceil` leaves the day
unchanged although a dropped component (the second, 30) is nonzero. -/
theorem c3_narrowing_bug :
    FuzzyDatetime.with_precision
      ⟨[some 2023, some 4, some 1, some 9, some 5, some 30], 5, none⟩
      "minute" none "ceil" = .error (.attributeError "tzinfo") ∧
    FuzzyDatetime.with_precision
      ⟨[some 2023, some 4, some 1, some 9, some 5, some 30], 5, none⟩
      "minute" none "trunc" = .error (.attributeError "tzinfo") ∧
    FuzzyDatetime.with_precision
      ⟨[some 2023, some 4, some 1, some 0, some 0, some 30], 5, none⟩
      "day" none "ceil" =
      .ok ⟨[some 2023, some 4, some 1, none, none, none], 2, none⟩ := by
  refine ⟨by decide, by decide, by decide⟩

/-- **C4** (amended): the timezone policy of `with_precision` when the target
precision differs from the current one. A target below hour precision always
drops the timezone. For a target at or above hour precision the timezone comes
from the *effective default*: when the caller supplies a default whose tzinfo
is set, that tzinfo **overrides** the value's own (contrary to the original
claim); only when the effective default carries no tzinfo is the value's own
timezone kept. With no caller default, an at-or-above-hour target can only
succeed by widening (the synthesized default has no tzinfo, so the value's
timezone is kept); narrowing without a default crashes, so it never reaches a
result. -/
theorem c4_with_precision_tz (v : FuzzyDatetime) (p r : String)
    (default : Option PyDatetime) (prec : Fin 6)
    (hp : DatePrecision.by_name p = some prec)
    (hne : prec.val ≠ v._precision) (w : FuzzyDatetime)
    (h : FuzzyDatetime.with_precision v p default r = .ok w) :
    (prec.val < DatePrecision.HOUR → w._tzinfo = none) ∧
    (DatePrecision.HOUR ≤ prec.val → ∀ d, default = some d →
      w._tzinfo = (match d.tzinfo with
        | some t => some t
        | none => v._tzinfo)) ∧
    (DatePrecision.HOUR ≤ prec.val → default = none →
      v._precision < prec.val ∧ w._tzinfo = v._tzinfo) := by
  unfold FuzzyDatetime.with_precision at h
  rw [hp] at h
  dsimp only at h
  rw [if_neg hne] at h
  simp only [bind, Except.bind, pure, Except.pure] at h
  split at h
  · exact absurd h (by simp)
  next st hse =>
  by_cases hlt : prec.val < v._precision
  -- narrowing: whatever the rounding, the state carries the caller default
  · rw [if_pos hlt] at hse
    have hsnd : st.2 = default := by
      split at hse
      · injection hse with h'
        rw [← h']
      · split at hse
        · split at hse
          · exact absurd hse (by simp [throw, throwThe, MonadExceptOf.throw])
          · split at hse
            · split at hse
              · injection hse with h'
                rw [← h']
              · injection hse with h'
                rw [← h']
            · exact absurd hse (by simp [throw, throwThe, MonadExceptOf.throw])
        · exact absurd hse (by simp [throw, throwThe, MonadExceptOf.throw])
    by_cases h3 : prec.val < DatePrecision.HOUR
    · rw [if_pos h3] at h
      obtain ⟨hshape, htz, hprec⟩ := init_ok_shape _ _ _ _ h
      refine ⟨fun _ => htz, fun hge => absurd h3 (by omega), fun hge => absurd h3 (by omega)⟩
    · rw [if_neg h3] at h
      rw [hsnd] at h
      cases hdef : default with
      | none =>
        rw [hdef] at h
        exact absurd h (by simp)
      | some d =>
        rw [hdef] at h
        dsimp only at h
        cases hdtz : d.tzinfo with
        | some t =>
          rw [hdtz] at h
          dsimp only at h
          obtain ⟨hshape, htz, hprec⟩ := init_ok_shape _ _ _ _ h
          refine ⟨fun hc => absurd hc h3, ?_, fun _ hc => absurd hc (by simp)⟩
          intro hge d' hd'
          injection hd' with hd''
          subst hd''
          rw [hdtz]
          exact htz
        | none =>
          rw [hdtz] at h
          dsimp only at h
          obtain ⟨hshape, htz, hprec⟩ := init_ok_shape _ _ _ _ h
          refine ⟨fun hc => absurd hc h3, ?_, fun _ hc => absurd hc (by simp)⟩
          intro hge d' hd'
          injection hd' with hd''
          subst hd''
          rw [hdtz]
          exact htz
  -- widening: the state carries the effective default (caller's or synthesized)
  · rw [if_neg hlt] at hse
    injection hse with h'
    have hsnd : st.2 = some (default.getD
        ⟨v.year.getD 0, 1, 1, 0, 0, 0, none⟩) := by rw [← h']
    by_cases h3 : prec.val < DatePrecision.HOUR
    · rw [if_pos h3] at h
      obtain ⟨hshape, htz, hprec⟩ := init_ok_shape _ _ _ _ h
      refine ⟨fun _ => htz, fun hge => absurd h3 (by omega), fun hge => absurd h3 (by omega)⟩
    · rw [if_neg h3] at h
      rw [hsnd] at h
      cases hdef : default with
      | none =>
        rw [hdef] at h
        dsimp only [Option.getD] at h
        obtain ⟨hshape, htz, hprec⟩ := init_ok_shape _ _ _ _ h
        refine ⟨fun hc => absurd hc h3, fun _ d' hd' => absurd hd' (by simp), ?_⟩
        intro hge _
        exact ⟨by omega, htz⟩
      | some d =>
        rw [hdef] at h
        dsimp only [Option.getD] at h
        cases hdtz : d.tzinfo with
        | some t =>
          rw [hdtz] at h
          dsimp only at h
          obtain ⟨hshape, htz, hprec⟩ := init_ok_shape _ _ _ _ h
          refine ⟨fun hc => absurd hc h3, ?_, fun _ hc => absurd hc (by simp)⟩
          intro hge d' hd'
          injection hd' with hd''
          subst hd''
          rw [hdtz]
          exact htz
        | none =>
          rw [hdtz] at h
          dsimp only at h
          obtain ⟨hshape, htz, hprec⟩ := init_ok_shape _ _ _ _ h
          refine ⟨fun hc => absurd hc h3, ?_, fun _ hc => absurd hc (by simp)⟩
          intro hge d' hd'
          injection hd' with hd''
          subst hd''
          rw [hdtz]
          exact htz

/-- **C4 witness**: widening a day-precision value carrying JST to hour
precision with no caller default keeps the JST timezone. -/
theorem c4_with_precision_tz_witness :
    FuzzyDatetime.with_precision
      ⟨[some 2023, some 4, some 1, none, none, none], 2,
        some ⟨540, some "JST", some "Asia/Tokyo"⟩⟩ "hour" none "trunc" =
      .ok ⟨[some 2023, some 4, some 1, some 0, none, none], 3,
        some ⟨540, some "JST", some "Asia/Tokyo"⟩⟩ ∧
    (⟨[some 2023, some 4, some 1, some 0, none, none], 3,
        some ⟨540, some "JST", some "Asia/Tokyo"⟩⟩ : FuzzyDatetime)._tzinfo =
      some ⟨540, some "JST", some "Asia/Tokyo"⟩ := by
  refine ⟨by decide, ?_⟩
  exact ((c4_with_precision_tz
    ⟨[some 2023, some 4, some 1, none, none, none], 2,
      some ⟨540, some "JST", some "Asia/Tokyo"⟩⟩
    "hour" "trunc" none 3 (by decide) (by decide)
    ⟨[some 2023, some 4, some 1, some 0, none, none], 3,
      some ⟨540, some "JST", some "Asia/Tokyo"⟩⟩
    (by decide)).2.2 (by decide) rfl).2

/-- **C4 counterexample**: the original claim fails in both directions it
asserts. Narrowing a second-precision JST value to hour precision with no
default does not keep the timezone — it raises `AttributeError`; and with a
default carrying EST, the value's already-present JST is overwritten by EST
rather than kept. -/
theorem c4_counterexample :
    FuzzyDatetime.with_precision
      ⟨[some 2023, some 4, some 1, some 9, some 5, some 30], 5,
        some ⟨540, some "JST", some "Asia/Tokyo"⟩⟩ "hour" none "trunc" =
      .error (.attributeError "tzinfo") ∧
    FuzzyDatetime.with_precision
      ⟨[some 2023, some 4, some 1, some 9, some 5, some 30], 5,
        some ⟨540, some "JST", some "Asia/Tokyo"⟩⟩ "hour"
      (some ⟨2020, 1, 1, 0, 0, 0, some ⟨-300, some "EST", some "America/New_York"⟩⟩)
      "trunc" =
      .ok ⟨[some 2023, some 4, some 1, some 9, none, none], 3,
        some ⟨-300, some "EST", some "America/New_York"⟩⟩ := by
  refine ⟨by decide, by decide⟩

theorem getD_take (l : List (Option Int)) (n i : Nat) (hi : i < n) :
    (l.take n).getD i none = l.getD i none := by
  induction l generalizing n i with
  | nil => simp
  | cons a t ih =>
    cases n with
    | zero => omega
    | succ n =>
      cases i with
      | zero => rfl
      | succ i =>
        simp only [List.take, List.getD_cons_succ]
        exact ih n i (by omega)

theorem normalize_getD_lt (c : List (Option Int)) (i : Nat)
    (hic : i < c.length) (hi6 : i < 6) :
    (normalizeComponents c).getD i none = c.getD i none := by
  unfold normalizeComponents
  rw [getD_take _ 6 i hi6]
  exact List.getD_append _ _ _ _ hic

theorem init_getD_low (c : List (Option Int)) (tz : Option FlexiTimezone)
    (p : Fin 6) (v : FuzzyDatetime)
    (h : FuzzyDatetime.init c tz (some p) = .ok v) (i : Nat) (hi6 : i < 6)
    (hsome : ((normalizeComponents c).getD i none).isSome = true) :
    v._components.getD i none = (normalizeComponents c).getD i none := by
  unfold FuzzyDatetime.init at h
  cases hdp : determinePrecision (normalizeComponents c) (some p) with
  | error e => rw [hdp] at h; exact absurd h (by simp)
  | ok out =>
    obtain ⟨comps, prec⟩ := out
    rw [hdp] at h
    dsimp only at h
    cases hv : validateDatetime comps with
    | error e => rw [hv] at h; exact absurd h (by simp)
    | ok u =>
      rw [hv] at h
      dsimp only at h
      injection h with h'
      subst h'
      unfold determinePrecision at hdp
      dsimp only at hdp
      split at hdp
      · exact absurd hdp (by simp)
      · unfold checkLowAndFill at hdp
        split at hdp
        · exact absurd hdp (by simp)
        · injection hdp with hdp'
          have hc1 : comps = fillDefaults (normalizeComponents c)
              (min 3 (p.val + 1) - 1) p.val := by
            have := congrArg Prod.fst hdp'
            exact this.symm
          dsimp only
          rw [hc1, fillDefaults_getD _ _ _ i (by rw [normalize_length]; omega)]
          rw [if_neg (by
            intro hcon
            rw [Option.isNone_iff_eq_none.mp hcon.2.2] at hsome
            exact absurd hsome (by simp))]

/-- **C5** (amended): the constructor invariant for every successful
construction — six slots, precision in scale, a component populated exactly
when at or below the precision, and every populated component calendar-valid
(year 1..9999, month 1..12, day within the month's actual length, hour 0..23,
minute and second 0..59).  (Which argument combinations *fail*, and with which
error, diverges from the original claim; see the counterexample.) -/
theorem c5_constructor_invariant (c : List (Option Int))
    (tz : Option FlexiTimezone) (pr : Option (Fin 6)) (v : FuzzyDatetime)
    (h : FuzzyDatetime.init c tz pr = .ok v) :
    v._components.length = 6 ∧ v._precision ≤ 5 ∧
    (∀ i, i < 6 → ((v._components.getD i none).isSome ↔ i ≤ v._precision)) ∧
    (∀ y, v._components.getD 0 none = some y → 1 ≤ y ∧ y ≤ 9999) ∧
    (∀ mo, v._components.getD 1 none = some mo → 1 ≤ mo ∧ mo ≤ 12) ∧
    (∀ y mo d, v._components.getD 0 none = some y →
      v._components.getD 1 none = some mo → v._components.getD 2 none = some d →
      1 ≤ d ∧ d ≤ daysInMonth y mo) ∧
    (∀ hr, v._components.getD 3 none = some hr → 0 ≤ hr ∧ hr ≤ 23) ∧
    (∀ mi, v._components.getD 4 none = some mi → 0 ≤ mi ∧ mi ≤ 59) ∧
    (∀ s, v._components.getD 5 none = some s → 0 ≤ s ∧ s ≤ 59) := by
  obtain ⟨⟨hlen, hple, hpres, hval⟩, htz, hexp⟩ := init_ok_shape c tz pr v h
  have hget : ∀ i, i < 6 → i ≤ v._precision →
      ∃ x, v._components.getD i none = some x := by
    intro i hi hip
    exact Option.isSome_iff_exists.mp ((hpres i hi).mpr hip)
  refine ⟨hlen, hple, hpres, validate_ok_year _ hval, validate_ok_month _ hval,
    validate_ok_day _ hval, ?_, ?_, ?_⟩
  · intro hr h3
    have h3p : 3 ≤ v._precision := (hpres 3 (by omega)).mp (by rw [h3]; rfl)
    obtain ⟨y, h0⟩ := hget 0 (by omega) (by omega)
    obtain ⟨mo, hm1⟩ := hget 1 (by omega) (by omega)
    obtain ⟨d, hd2⟩ := hget 2 (by omega) (by omega)
    exact validate_ok_hour _ hval y mo d hr h0 hm1 hd2 h3
  · intro mi h4
    have h4p : 4 ≤ v._precision := (hpres 4 (by omega)).mp (by rw [h4]; rfl)
    obtain ⟨y, h0⟩ := hget 0 (by omega) (by omega)
    obtain ⟨mo, hm1⟩ := hget 1 (by omega) (by omega)
    obtain ⟨d, hd2⟩ := hget 2 (by omega) (by omega)
    obtain ⟨hr, h3⟩ := hget 3 (by omega) (by omega)
    exact validate_ok_minute _ hval y mo d hr mi h0 hm1 hd2 h3 h4
  · intro s h5
    have h5p : 5 ≤ v._precision := (hpres 5 (by omega)).mp (by rw [h5]; rfl)
    obtain ⟨y, h0⟩ := hget 0 (by omega) (by omega)
    obtain ⟨mo, hm1⟩ := hget 1 (by omega) (by omega)
    obtain ⟨d, hd2⟩ := hget 2 (by omega) (by omega)
    obtain ⟨hr, h3⟩ := hget 3 (by omega) (by omega)
    obtain ⟨mi, h4⟩ := hget 4 (by omega) (by omega)
    exact validate_ok_second _ hval y mo d hr mi s h0 hm1 hd2 h3 h4 h5

/-- **C5 witness**: constructing 2020-02-29 (a valid leap-day) succeeds and the
theorem yields the day bound at that value. -/
theorem c5_constructor_invariant_witness :
    FuzzyDatetime.init [some 2020, some 2, some 29] none none =
      .ok ⟨[some 2020, some 2, some 29, none, none, none], 2, none⟩ ∧
    (1 ≤ (29 : Int) ∧ (29 : Int) ≤ daysInMonth 2020 2) := by
  refine ⟨by decide, ?_⟩
  exact (c5_constructor_invariant [some 2020, some 2, some 29] none none
    ⟨[some 2020, some 2, some 29, none, none, none], 2, none⟩
    (by decide)).2.2.2.2.2.1 2020 2 29 rfl rfl rfl

/-- **C5 counterexample**: the original claim's failure mode is wrong twice
over. Supplying a day with no month fails with `AttributeError` (the
`FDPrecisionError` constructor reads `self._precision` before `__init__` has
assigned it), not with a precision- or value-error; and omitting the hour
below the inferred minute precision does not fail at all — the hour is
silently zero-filled. -/
theorem c5_counterexample :
    FuzzyDatetime.init [some 2023, none, some 1] none none =
      .error (.attributeError "_precision") ∧
    FuzzyDatetime.init [some 2023, some 4, some 1, none, some 5, none] none
      none =
      .ok ⟨[some 2023, some 4, some 1, some 0, some 5, none], 4, none⟩ := by
  refine ⟨by decide, by decide⟩

/-- **C6**: duration arithmetic. A successful `v + d` or `v - d` goes through
the full-instant pipeline — `to_datetime` with zero-valued defaults, the
calendar shift — and re-extracts exactly the components up to `v`'s original
precision; the result keeps `v`'s precision and timezone. -/
theorem c6_arith_preserves (v : FuzzyDatetime) (secs : Int) (w : FuzzyDatetime)
    (h : FuzzyDatetime.add v secs = .ok w ∨ FuzzyDatetime.sub v secs = .ok w) :
    w._precision = v._precision ∧ w._tzinfo = v._tzinfo ∧
    ∃ dt dt', FuzzyDatetime.to_datetime v none = .ok dt ∧
      (pyDatetimeAddSeconds dt secs = .ok dt' ∨
        pyDatetimeAddSeconds dt (-secs) = .ok dt') ∧
      (∀ i, i ≤ v._precision → i < 6 → w._components.getD i none =
        ([some dt'.year, some dt'.month, some dt'.day, some dt'.hour,
          some dt'.minute, some dt'.second] : List (Option Int)).getD i none) ∧
      (∀ i, v._precision < i → i < 6 → w._components.getD i none = none) := by
  rcases h with h | h
  · unfold FuzzyDatetime.add at h
    simp only [bind, Except.bind, pure, Except.pure] at h
    split at h
    · exact absurd h (by simp)
    next dt hdt =>
    split at h
    · exact absurd h (by simp)
    next dt' hdt' =>
    split at h
    case isFalse => exact absurd h (by simp [throw, throwThe, MonadExceptOf.throw])
    case isTrue h6 =>
    obtain ⟨⟨hlen, hple, hpres, hval⟩, htz, hexp⟩ := init_ok_shape _ _ _ _ h
    have hprec : w._precision = v._precision := hexp ⟨v._precision, h6⟩ rfl
    refine ⟨hprec, htz, dt, dt', hdt, Or.inl hdt', ?_, ?_⟩
    · intro i hip hi6
      have hlent : (([some dt'.year, some dt'.month, some dt'.day, some dt'.hour,
          some dt'.minute, some dt'.second] : List (Option Int)).take
            (v._precision + 1)).length = v._precision + 1 := by
        rw [List.length_take]
        simp only [List.length_cons, List.length_nil]
        omega
      have hs1 : (([some dt'.year, some dt'.month, some dt'.day, some dt'.hour,
          some dt'.minute, some dt'.second] : List (Option Int)).take
            (v._precision + 1)).getD i none =
          ([some dt'.year, some dt'.month, some dt'.day, some dt'.hour,
            some dt'.minute, some dt'.second] : List (Option Int)).getD i none :=
        getD_take _ _ _ (by omega)
      have hs0 := normalize_getD_lt (([some dt'.year, some dt'.month,
          some dt'.day, some dt'.hour, some dt'.minute, some dt'.second] :
          List (Option Int)).take (v._precision + 1)) i (by omega) hi6
      have hsome : (([some dt'.year, some dt'.month, some dt'.day, some dt'.hour,
          some dt'.minute, some dt'.second] : List (Option Int)).getD i
            none).isSome = true := by
        interval_cases i <;> simp
      rw [init_getD_low _ _ _ _ h i hi6 (by rw [hs0, hs1]; exact hsome), hs0, hs1]
    · intro i hgt hi6
      have hiff := hpres i hi6
      rw [hprec] at hiff
      cases hx : w._components.getD i none with
      | none => rfl
      | some a =>
        have : i ≤ v._precision := hiff.mp (by rw [hx]; rfl)
        omega
  · unfold FuzzyDatetime.sub at h
    simp only [bind, Except.bind, pure, Except.pure] at h
    split at h
    · exact absurd h (by simp)
    next dt hdt =>
    split at h
    · exact absurd h (by simp)
    next dt' hdt' =>
    split at h
    case isFalse => exact absurd h (by simp [throw, throwThe, MonadExceptOf.throw])
    case isTrue h6 =>
    obtain ⟨⟨hlen, hple, hpres, hval⟩, htz, hexp⟩ := init_ok_shape _ _ _ _ h
    have hprec : w._precision = v._precision := hexp ⟨v._precision, h6⟩ rfl
    refine ⟨hprec, htz, dt, dt', hdt, Or.inr hdt', ?_, ?_⟩
    · intro i hip hi6
      have hlent : (([some dt'.year, some dt'.month, some dt'.day, some dt'.hour,
          some dt'.minute, some dt'.second] : List (Option Int)).take
            (v._precision + 1)).length = v._precision + 1 := by
        rw [List.length_take]
        simp only [List.length_cons, List.length_nil]
        omega
      have hs1 : (([some dt'.year, some dt'.month, some dt'.day, some dt'.hour,
          some dt'.minute, some dt'.second] : List (Option Int)).take
            (v._precision + 1)).getD i none =
          ([some dt'.year, some dt'.month, some dt'.day, some dt'.hour,
            some dt'.minute, some dt'.second] : List (Option Int)).getD i none :=
        getD_take _ _ _ (by omega)
      have hs0 := normalize_getD_lt (([some dt'.year, some dt'.month,
          some dt'.day, some dt'.hour, some dt'.minute, some dt'.second] :
          List (Option Int)).take (v._precision + 1)) i (by omega) hi6
      have hsome : (([some dt'.year, some dt'.month, some dt'.day, some dt'.hour,
          some dt'.minute, some dt'.second] : List (Option Int)).getD i
            none).isSome = true := by
        interval_cases i <;> simp
      rw [init_getD_low _ _ _ _ h i hi6 (by rw [hs0, hs1]; exact hsome), hs0, hs1]
    · intro i hgt hi6
      have hiff := hpres i hi6
      rw [hprec] at hiff
      cases hx : w._components.getD i none with
      | none => rfl
      | some a =>
        have : i ≤ v._precision := hiff.mp (by rw [hx]; rfl)
        omega

/-- **C6 witness**: adding one day (86400 seconds) to
2023-04-01 09:05:30 JST yields 2023-04-02 09:05:30 JST with the same
precision and timezone. -/
theorem c6_arith_preserves_witness :
    FuzzyDatetime.add
      ⟨[some 2023, some 4, some 1, some 9, some 5, some 30], 5,
        some ⟨540, some "JST", some "Asia/Tokyo"⟩⟩ 86400 =
      .ok ⟨[some 2023, some 4, some 2, some 9, some 5, some 30], 5,
        some ⟨540, some "JST", some "Asia/Tokyo"⟩⟩ ∧
    (⟨[some 2023, some 4, some 2, some 9, some 5, some 30], 5,
        some ⟨540, some "JST", some "Asia/Tokyo"⟩⟩ :
      FuzzyDatetime)._precision = 5 ∧
    (⟨[some 2023, some 4, some 2, some 9, some 5, some 30], 5,
        some ⟨540, some "JST", some "Asia/Tokyo"⟩⟩ :
      FuzzyDatetime)._tzinfo = some ⟨540, some "JST", some "Asia/Tokyo"⟩ := by
  refine ⟨by decide, ?_, ?_⟩
  · exact (c6_arith_preserves
      ⟨[some 2023, some 4, some 1, some 9, some 5, some 30], 5,
        some ⟨540, some "JST", some "Asia/Tokyo"⟩⟩ 86400
      ⟨[some 2023, some 4, some 2, some 9, some 5, some 30], 5,
        some ⟨540, some "JST", some "Asia/Tokyo"⟩⟩
      (Or.inl (by decide))).1
  · exact (c6_arith_preserves
      ⟨[some 2023, some 4, some 1, some 9, some 5, some 30], 5,
        some ⟨540, some "JST", some "Asia/Tokyo"⟩⟩ 86400
      ⟨[some 2023, some 4, some 2, some 9, some 5, some 30], 5,
        some ⟨540, some "JST", some "Asia/Tokyo"⟩⟩
      (Or.inl (by decide))).2.1

/-- **C7**: cascading left-to-right dependency. No successfully parsed value
populates a lower-significance component without every higher one (so the
parser never silently assumes `day=1`); an input the grammar does not match
fails with `FDFormatError`; and the witness strings for an hour with no day,
a day with no month, and a minute with no hour are all grammar mismatches,
hence `FDFormatError`, not a value error. -/
theorem c7_cascading_dependency (source r : String) (sd st : Bool)
    (A : Option (List String)) :
    (∀ v, FuzzyDatetime.parse source r sd st A = .ok v →
      ∀ i j, i ≤ j → j < 6 → (v._components.getD j none).isSome = true →
        (v._components.getD i none).isSome = true) ∧
    (matchDatetime source.data = none →
      FuzzyDatetime.parse source r sd st A = .error (.formatError source)) ∧
    FuzzyDatetime.parse "2023/4/ 9" "" false false none =
      .error (.formatError "2023/4/ 9") ∧
    FuzzyDatetime.parse "2023//1" "" false false none =
      .error (.formatError "2023//1") ∧
    FuzzyDatetime.parse "2023/4/1 9: 5" "" false false none =
      .error (.formatError "2023/4/1 9: 5") := by
  refine ⟨?_, ?_, by decide, by decide, by decide⟩
  · intro v h
    obtain ⟨⟨hlen, hple, hpres, hval⟩, htzf, hreq⟩ :=
    parse_ok_elim source r sd st A v h
    intro i j hij hj6 hjs
    exact (hpres i (by omega)).mpr (le_trans hij ((hpres j hj6).mp hjs))
  · intro hm
    unfold FuzzyDatetime.parse
    rw [hm]

/-- **C7 witness**: the downward-closure consequence applied at the parsed
month-precision value of `"2023/4"`. -/
theorem c7_cascading_dependency_witness :
    FuzzyDatetime.parse "2023/4" "" false false none =
      .ok ⟨[some 2023, some 4, none, none, none, none], 1, none⟩ ∧
    ((⟨[some 2023, some 4, none, none, none, none], 1, none⟩ :
      FuzzyDatetime)._components.getD 0 none).isSome = true := by
  refine ⟨by decide, ?_⟩
  exact (c7_cascading_dependency "2023/4" "" false false none).1
    ⟨[some 2023, some 4, none, none, none, none], 1, none⟩ (by decide)
    0 1 (by omega) (by omega) (by decide)

/-- **C8**: the leap-year day bound. For every year 1..9999, parsing the
four-digit year followed by `"/02/29"` succeeds (with month 2, day 29, day
precision) exactly when the year is leap — divisible by 4 and (not divisible
by 100 or divisible by 400) — and otherwise fails with a `ValueError`
identifying the `day` field. -/
theorem c8_leap_day_bound (y : Int) (h1 : 1 ≤ y) (h2 : y ≤ 9999) :
    (isLeap y = true →
      FuzzyDatetime.parse
        (String.mk (pad y 4 ++ '/' :: (['0', '2'] ++ '/' :: ['2', '9'])))
        "" false false none =
        .ok ⟨[some y, some 2, some 29, none, none, none], 2, none⟩) ∧
    (isLeap y = false →
      FuzzyDatetime.parse
        (String.mk (pad y 4 ++ '/' :: (['0', '2'] ++ '/' :: ['2', '9'])))
        "" false false none = .error (.valueError "day")) := by
  have hy4 := pad4_len y (by omega) (by omega)
  have hy4d := pad_all_digits y (by omega) 4
  have hmatch : matchDatetime (pad y 4 ++ '/' :: (['0', '2'] ++ '/' :: ['2', '9'])) =
      some ⟨pad y 4, some '/', some ['0', '2'], some '/', some ['2', '9'], none,
        none, none, none, none, none⟩ := by
    rw [matchDatetime_step _ _ hy4 hy4d,
      matchMonthPart_step _ _ _ _ (by decide) (by decide) (by decide),
      matchDayPart_last _ _ _ (by decide) (by decide) (by decide)]
    exact matchHourPart_done _
  have hpc : precisionCheck ""
      (inPrecisionOf ⟨pad y 4, some '/', some ['0', '2'], some '/',
        some ['2', '9'], none, none, none, none, none, none⟩)
      (String.mk (pad y 4 ++ '/' :: (['0', '2'] ++ '/' :: ['2', '9']))) = none := by
    apply precisionCheck_eq_none_of
    exact Or.inl rfl
  have hpipe := parse_of_match _ "" _ hmatch hpc
  have hgc : groupComponents ⟨pad y 4, some '/', some ['0', '2'], some '/',
      some ['2', '9'], none, none, none, none, none, none⟩ =
      [some y, some 2, some 29, none, none, none] := by
    simp only [groupComponents, Option.map_some', Option.map_none']
    rw [cast_readNat_pad y (by omega) 4,
      show ((readNat ['0', '2'] : Nat) : Int) = 2 from by decide,
      show ((readNat ['2', '9'] : Nat) : Int) = 29 from by decide]
  constructor
  · intro hleap
    have hval : validateDatetime [some y, some 2, some 29, none, none, none] =
        .ok () := by
      simp only [validateDatetime, List.getD_cons_zero, List.getD_cons_succ]
      rw [if_neg (by omega : ¬¬(1 ≤ y ∧ y ≤ 9999)),
        if_neg (by norm_num : ¬¬((1:Int) ≤ 2 ∧ (2:Int) ≤ 12)),
        if_neg (by simp [daysInMonth, hleap] :
          ¬¬((1:Int) ≤ 29 ∧ (29:Int) ≤ daysInMonth y 2))]
    have hvs : ValidShape ⟨[some y, some 2, some 29, none, none, none], 2, none⟩ :=
      ⟨by simp, show (2:Nat) ≤ 5 by norm_num, by intro i hi; interval_cases i <;> simp, hval⟩
    have hinit := init_self ⟨[some y, some 2, some 29, none, none, none], 2, none⟩
      hvs none 2 rfl
    rw [hpipe]
    dsimp only
    rw [hgc]
    exact hinit
  · intro hleap
    rw [hpipe]
    dsimp only
    rw [hgc]
    rw [show inPrecisionOf ⟨pad y 4, some '/', some ['0', '2'], some '/',
      some ['2', '9'], none, none, none, none, none, none⟩ = (2 : Fin 6) from rfl]
    unfold FuzzyDatetime.init
    rw [normalize_id _ (by simp)]
    have hdet : determinePrecision [some y, some 2, some 29, none, none, none]
        (some 2) = .ok ([some y, some 2, some 29, none, none, none], 2) := by
      unfold determinePrecision
      dsimp only
      rw [if_neg ?hg]
      case hg => simp [List.range']
      unfold checkLowAndFill
      rw [if_neg ?hg2]
      case hg2 =>
        simp only [List.any_eq_true, List.mem_range, not_exists, not_and]
        intro x hx
        have hx3 : x < 3 := by omega
        interval_cases x <;> simp
      rw [fillDefaults_eq_self _ _ _ ?hf]
      case hf =>
        intro i hlen hlo hhi
        have hi2 : i ≤ 2 := hhi
        interval_cases i <;> simp_all
      rfl
    rw [hdet]
    dsimp only
    have hval : validateDatetime [some y, some 2, some 29, none, none, none] =
        .error (.valueError "day") := by
      simp only [validateDatetime, List.getD_cons_zero, List.getD_cons_succ]
      rw [if_neg (by omega : ¬¬(1 ≤ y ∧ y ≤ 9999)),
        if_neg (by norm_num : ¬¬((1:Int) ≤ 2 ∧ (2:Int) ≤ 12)),
        if_pos (by simp [daysInMonth, hleap] :
          ¬((1:Int) ≤ 29 ∧ (29:Int) ≤ daysInMonth y 2))]
    rw [hval]

/-- **C8 witness**: `"2020/02/29"` parses (2020 is leap), `"2021/02/29"` fails
with a `ValueError` on `day`. -/
theorem c8_leap_day_bound_witness :
    FuzzyDatetime.parse "2020/02/29" "" false false none =
      .ok ⟨[some 2020, some 2, some 29, none, none, none], 2, none⟩ ∧
    FuzzyDatetime.parse "2021/02/29" "" false false none =
      .error (.valueError "day") := by
  refine ⟨?_, ?_⟩
  · exact (c8_leap_day_bound 2020 (by norm_num) (by norm_num)).1 (by decide)
  · exact (c8_leap_day_bound 2021 (by norm_num) (by norm_num)).2 (by decide)

/-- **C9** (amended): every timezone the timezone parser returns has a
resolved offset within ±6039 minutes — the true bound of the accepted offset
grammar (hours and minutes fields up to 99 each), not the claimed ±1440 —
while every *registry* timezone is within ±1440. -/
theorem c9_offset_bound (s : String) (A : Option (List String))
    (t : FlexiTimezone) (h : FlexiTimezone.parse s A = .ok t) :
    t.offset.natAbs ≤ 6039 ∧
    (t ∈ all_timezones.map Prod.snd → t.offset.natAbs ≤ 1440) := by
  refine ⟨(tz_parse_ok s A t h).2, ?_⟩
  intro hmem
  fin_cases hmem <;> decide

/-- **C9 witness**: the bound applied at the parsed offset `"+09:00"`. -/
theorem c9_offset_bound_witness :
    FlexiTimezone.parse "+09:00" none = .ok ⟨540, none, none⟩ ∧
    ((⟨540, none, none⟩ : FlexiTimezone).offset.natAbs ≤ 6039) := by
  refine ⟨by decide, ?_⟩
  exact (c9_offset_bound "+09:00" none ⟨540, none, none⟩ (by decide)).1

/-- **C9 counterexample**: `"+99:99"` is accepted by the offset grammar and
resolves to 6039 minutes, far beyond the claimed ±(24×60) = ±1440 bound. -/
theorem c9_counterexample :
    FlexiTimezone.parse "+99:99" none = .ok ⟨6039, none, none⟩ ∧
    ¬ ((6039 : Int).natAbs ≤ 24 * 60) := by
  refine ⟨by decide, by decide⟩

/-- **C10** (amended): for an input the grammar matches with no timezone
token (and whose required-precision check passes), parsing with an
`allowed_tz_formats` set lacking the `none` pseudo-form raises the
"Missing timezone" `FDTimezoneFormatError`; with the default set the parse
proceeds to construction with no timezone — it equals the constructor call
(which can still fail on validation; see the counterexample), and any
successful result carries `tzinfo = None`. -/
theorem c10_missing_tz_gate (source r : String) (L : List String)
    (g : DtGroups) (hm : matchDatetime source.data = some g)
    (hpc : precisionCheck r (inPrecisionOf g) source = none)
    (htz : g.tz = none) (hL : L.contains "none" = false) :
    FuzzyDatetime.parse source r false false (some L) =
      .error (.timezoneFormatError ("Missing timezone in " ++ source)) ∧
    FuzzyDatetime.parse source r false false none =
      FuzzyDatetime.init (groupComponents g) none (some (inPrecisionOf g)) ∧
    (∀ v, FuzzyDatetime.parse source r false false none = .ok v →
      v._tzinfo = none) := by
  have h2 : FuzzyDatetime.parse source r false false none =
      FuzzyDatetime.init (groupComponents g) none (some (inPrecisionOf g)) := by
    unfold FuzzyDatetime.parse
    rw [hm]
    dsimp only
    rw [hpc]
    dsimp only
    rw [if_neg (by simp), if_neg (by simp)]
    rw [htz]
    dsimp only [Option.getD]
    rw [if_neg (by decide)]
  refine ⟨?_, h2, ?_⟩
  · unfold FuzzyDatetime.parse
    rw [hm]
    dsimp only
    rw [hpc]
    dsimp only
    rw [if_neg (by simp), if_neg (by simp)]
    rw [htz]
    dsimp only [Option.getD]
    rw [if_pos (by simpa using hL)]
  · intro v hv
    rw [h2] at hv
    exact (init_ok_shape _ _ _ _ hv).2.1

/-- **C10 witness**: the gate applied at `"2023/4/1"` with
`allowed_tz_formats = ["name"]`. -/
theorem c10_missing_tz_gate_witness :
    FuzzyDatetime.parse "2023/4/1" "" false false (some ["name"]) =
      .error (.timezoneFormatError ("Missing timezone in " ++ "2023/4/1")) ∧
    FuzzyDatetime.parse "2023/4/1" "" false false none =
      FuzzyDatetime.init (groupComponents
        ⟨['2', '0', '2', '3'], some '/', some ['4'], some '/', some ['1'],
          none, none, none, none, none, none⟩) none
        (some (inPrecisionOf
          ⟨['2', '0', '2', '3'], some '/', some ['4'], some '/', some ['1'],
            none, none, none, none, none, none⟩)) ∧
    (∀ v, FuzzyDatetime.parse "2023/4/1" "" false false none = .ok v →
      v._tzinfo = none) := by
  exact c10_missing_tz_gate "2023/4/1" "" ["name"]
    ⟨['2', '0', '2', '3'], some '/', some ['4'], some '/', some ['1'],
      none, none, none, none, none, none⟩
    (by decide) (by decide) rfl (by decide)

/-- **C10 counterexample**: with the default `allowed_tz_formats`, a
grammar-matching timezone-less input does **not** always succeed — `"2023/13"`
matches the grammar with no timezone token, yet parsing fails with a
`ValueError` on `month`. -/
theorem c10_counterexample :
    matchDatetime "2023/13".data =
      some ⟨['2', '0', '2', '3'], some '/', some ['1', '3'], none, none, none,
        none, none, none, none, none⟩ ∧
    FuzzyDatetime.parse "2023/13" "" false false none =
      .error (.valueError "month") := by
  refine ⟨by decide, by decide⟩

end LivreRecords
